import Mathlib

/-!
# Razor Indent Formatter — verification of the indentation engine

A shallow embedding of the formatter in `src/formatter.ts` (the richest
variant of the repository's formatter file): the document scanner, the
raw/text-block re-indentation pass, the switch/case blank-line layouter and
the output validator, together with theorems settling the frozen claims
about them.

Strings are modelled as `List Char` (`Str`).  JavaScript regular
expressions are hand-translated into character-list scanners; each
definition notes the regex it models.  JS `number` values that the code
keeps integral (nesting levels, widths) are modelled as `Int`, with the
source's `Math.max(0, _)` clamps kept explicit.
-/

namespace RazorFmt

abbrev Str := List Char

/-- JS `\s` (ECMA WhiteSpace ∪ LineTerminator), used by `trimStart`, `trim`
and the `\s` atoms of the source's regexes. -/
def jsIsSpace (c : Char) : Bool :=
  c == ' ' || c == '\t' || c == '\n' || c == '\r' || c == '\x0b' || c == '\x0c' ||
  c == ' ' || c == ' ' || (' ' ≤ c && c ≤ ' ') ||
  c == ' ' || c == ' ' || c == ' ' || c == ' ' ||
  c == '　' || c == '﻿'

/-- JS line terminators: the characters `.` does not match in a regex. -/
def isLineTerm (c : Char) : Bool :=
  c == '\n' || c == '\r' || c == ' ' || c == ' '

/-- JS `String.prototype.trimStart`. -/
def wTrimStart (l : Str) : Str := l.dropWhile jsIsSpace

/-- JS `String.prototype.trim`. -/
def jsTrim (l : Str) : Str :=
  ((l.dropWhile jsIsSpace).reverse.dropWhile jsIsSpace).reverse

/-- JS `toLowerCase`, modelled per character with ASCII lowering — adequate
here, where the lowered text is only compared against short ASCII markers
(`<`, `@:`, `<script`, …). -/
def jsToLower (l : Str) : Str := l.map Char.toLower

/-- `l.startsWith p` on character lists. -/
def leadsWith : Str → Str → Bool
  | _, [] => true
  | [], _ :: _ => false
  | c :: l, p :: ps => c == p && leadsWith l ps

/-- Consume the exact marker `pat` from the head of `l`, returning the
remainder. -/
def consumeExact : Str → Str → Option Str
  | [], l => some l
  | _ :: _, [] => none
  | p :: ps, c :: l => if c == p then consumeExact ps l else none

/-- Case-insensitively consume the (already lowercase, ASCII) marker from the
head of `l`, returning the remainder. -/
def ciConsume : Str → Str → Option Str
  | [], l => some l
  | _ :: _, [] => none
  | p :: ps, c :: l => if c.toLower == p then ciConsume ps l else none

/-- One position of the search done by `new RegExp("<\\s*\\/\\s*TAG\\s*>", "i").test`:
does `l` begin with `<` `\s*` `/` `\s*` TAG `\s*` `>`? -/
def closeTagAt (tag : Str) (l : Str) : Bool :=
  match l with
  | '<' :: r =>
    match wTrimStart r with
    | '/' :: r2 =>
      match ciConsume tag (wTrimStart r2) with
      | some r3 =>
        match wTrimStart r3 with
        | '>' :: _ => true
        | _ => false
      | none => false
    | _ => false
  | _ => false

/-- Unanchored search for the closing-tag pattern (the `.test` call of
`containsClosingTag` for a nonempty tag name). -/
def containsCloseTag (tag : Str) : Str → Bool
  | [] => false
  | c :: t => closeTagAt tag (c :: t) || containsCloseTag tag t

/-- `containsClosingTag` of the source: an empty tag name never matches. -/
def containsClosingTag (line : Str) (tagName : Str) : Bool :=
  if tagName.isEmpty then false else containsCloseTag tagName line

/-- The source's `TEXT_CLOSE_RE.test`: `/<\s*\/\s*text\s*>/i`. -/
def hasTextCloseMarker (l : Str) : Bool := containsCloseTag ['t', 'e', 'x', 't'] l

/-- `[a-zA-Z0-9:-]`, the tag-name character class of the source's regexes. -/
def isTagNameChar (c : Char) : Bool :=
  (c.isAlpha || c.isDigit) || c == ':' || c == '-'

/-- JS `\w` (`\b` is computed from it). -/
def isWordChar (c : Char) : Bool := (c.isAlpha || c.isDigit) || c == '_'

/-- `^WORD\b` for an ASCII keyword `w`: the keyword, then end of input or a
non-word character. -/
def keywordAt (w : Str) (l : Str) : Bool :=
  match consumeExact w l with
  | some [] => true
  | some (c :: _) => !isWordChar c
  | none => false

/-- `/^switch\s*\(/.test` — `switch`, optional whitespace, `(`. -/
def isSwitchStart (l : Str) : Bool :=
  match consumeExact ['s', 'w', 'i', 't', 'c', 'h'] l with
  | some r => leadsWith (wTrimStart r) ['(']
  | none => false

/-- `/^case\b/.test`. -/
def isCaseStart (l : Str) : Bool := keywordAt ['c', 'a', 's', 'e'] l

/-- `/^default\b/.test`. -/
def isDefaultStart (l : Str) : Bool := keywordAt ['d', 'e', 'f', 'a', 'u', 'l', 't'] l

/-- `/^break\b/.test`. -/
def isBreakStart (l : Str) : Bool := keywordAt ['b', 'r', 'e', 'a', 'k'] l

/-- `stripHtmlComments`: removes `<!-- ... -->` regions from a line, carrying
the open-comment flag across lines.  The source advances with `indexOf` over
the two markers; scanning character by character for the same markers meets
the same first occurrences, so the two formulations agree. -/
def stripHtmlComments : Str → Bool → Str × Bool
  | [], inC => ([], inC)
  | '-' :: '-' :: '>' :: r, true => stripHtmlComments r false
  | _ :: r, true => stripHtmlComments r true
  | '<' :: '!' :: '-' :: '-' :: r, false => stripHtmlComments r true
  | c :: r, false =>
    let (s, b) := stripHtmlComments r false
    (c :: s, b)

structure BraceOut where
  opens : Nat
  closes : Nat
  inBlockComment : Bool
deriving Repr, DecidableEq

/-- The quote state of the brace counter: single / double / template quote
flags plus the running open/close counts.  (JS field names `open`/`close` are
Lean keywords, hence `opens`/`closes`.) -/
structure QuoteSt where
  inS : Bool
  inD : Bool
  inT : Bool
  opens : Nat
  closes : Nat
deriving Repr, DecidableEq

/-- The U+0060 backquote character that delimits template literals. -/
def backQuote : Char := Char.ofNat 96

/-- One ordinary (non-comment-marker) character of `countBraces`' loop.
The source's escape handling compares the one-character `char` against the
two-character string of two backslashes and is therefore inert; it is
omitted. -/
def braceStep (st : QuoteSt) (ch : Char) : QuoteSt :=
  if ch == '\'' && !st.inD && !st.inT then { st with inS := !st.inS }
  else if ch == '"' && !st.inS && !st.inT then { st with inD := !st.inD }
  else if ch == backQuote && !st.inS && !st.inD then { st with inT := !st.inT }
  else if st.inS || st.inD || st.inT then st
  else if ch == '{' then { st with opens := st.opens + 1 }
  else if ch == '}' then { st with closes := st.closes + 1 }
  else st

/-- The scanning loop of `countBraces`: `/* */` pairs and `//` line comments
are recognized only outside quotes; the block-comment flag is carried across
lines.  Inside a quote a `/` changes no state, so the quoted `/'*'` and
`/'/'` look-ahead cases simply step one character. -/
def braceScan : QuoteSt → Bool → Str → BraceOut
  | st, inBC, [] => ⟨st.opens, st.closes, inBC⟩
  | st, true, '*' :: '/' :: r => braceScan st false r
  | st, true, _ :: r => braceScan st true r
  | st, false, '/' :: '*' :: r =>
    if !st.inS && !st.inD && !st.inT then braceScan st true r
    else braceScan st false ('*' :: r)
  | st, false, '/' :: '/' :: r =>
    if !st.inS && !st.inD && !st.inT then ⟨st.opens, st.closes, false⟩
    else braceScan st false ('/' :: r)
  | st, false, ch :: r => braceScan (braceStep st ch) false r

/-- `countBraces(line, inBlockComment)`. -/
def countBraces (line : Str) (inBC : Bool) : BraceOut :=
  braceScan ⟨false, false, false, 0, 0⟩ inBC line

/-- The `/<[^>]+>/g` tokenizer of `extractTags`, with fuel: every step
consumes at least one character, so `l.length` steps always suffice. -/
def tagTokensF : Nat → Str → List Str
  | 0, _ => []
  | _ + 1, [] => []
  | fuel + 1, '<' :: t =>
    let body := t.takeWhile (fun c => c != '>')
    match t.dropWhile (fun c => c != '>') with
    | '>' :: r =>
      if body.isEmpty then tagTokensF fuel t
      else ('<' :: (body ++ ['>'])) :: tagTokensF fuel r
    | _ => tagTokensF fuel t
  | fuel + 1, _ :: t => tagTokensF fuel t

def tagTokens (l : Str) : List Str := tagTokensF l.length l

structure TagTok where
  name : Str
  isClosing : Bool
  isSelfClosing : Bool
deriving Repr, DecidableEq

def VOID_TAGS : List Str :=
  ["area", "base", "br", "col", "embed", "hr", "img", "input", "link", "meta",
   "param", "source", "track", "wbr"].map String.data

def RAW_TAGS : List Str := ["script", "style"].map String.data

/-- `raw.match(/^<\s*\/?\s*([a-zA-Z0-9:-]+)/)`: the (not yet lowered) tag
name of a bracketed token, if any. -/
def tokName (raw : Str) : Option Str :=
  match raw with
  | '<' :: r =>
    let r1 := wTrimStart r
    let r2 := match r1 with
      | '/' :: rr => wTrimStart rr
      | _ => r1
    let nm := r2.takeWhile isTagNameChar
    if nm.isEmpty then none else some nm
  | _ => none

/-- `/^<\s*\//.test(raw)`. -/
def tokIsClosing (raw : Str) : Bool :=
  match raw with
  | '<' :: r => leadsWith (wTrimStart r) ['/']
  | _ => false

/-- `/\/>\s*$/.test(raw)`. -/
def tokSelfCloseMark (raw : Str) : Bool :=
  leadsWith (raw.reverse.dropWhile jsIsSpace) ['>', '/']

/-- `extractTags(line)`: bracket tokens of the cleaned line, skipping
`<!`/`<?`/`<%` declaration-like tokens and tokens without a name, classified
as opening / closing / self-closing (void names included). -/
def extractTags (line : Str) : List TagTok :=
  (tagTokens line).filterMap fun raw =>
    if leadsWith raw ['<', '!'] || leadsWith raw ['<', '?'] || leadsWith raw ['<', '%'] then
      none
    else
      match tokName raw with
      | none => none
      | some nm =>
        let name := jsToLower nm
        some ⟨name, tokIsClosing raw, tokSelfCloseMark raw || VOID_TAGS.contains name⟩

/-- `^<\s*\/\s*[a-zA-Z0-9:-]+[^>]*>\s*`: consume one leading closing tag of
`countLeadingClosings`, returning the remainder. -/
def leadCloseTag (l : Str) : Option Str :=
  match l with
  | '<' :: r =>
    match wTrimStart r with
    | '/' :: r2 =>
      let r3 := wTrimStart r2
      if (r3.takeWhile isTagNameChar).isEmpty then none
      else
        match (r3.dropWhile isTagNameChar).dropWhile (fun c => c != '>') with
        | '>' :: r4 => some (wTrimStart r4)
        | _ => none
    | _ => none
  | _ => none

/-- `^@?\}\s*`: consume one leading (optionally `@`-prefixed) closing brace. -/
def leadCloseBrace (l : Str) : Option Str :=
  match l with
  | '@' :: '}' :: r => some (wTrimStart r)
  | '}' :: r => some (wTrimStart r)
  | _ => none

def countLeadingClosingsF : Nat → Str → Nat
  | 0, _ => 0
  | fuel + 1, l =>
    match leadCloseTag l with
    | some r => countLeadingClosingsF fuel r + 1
    | none =>
      match leadCloseBrace l with
      | some r => countLeadingClosingsF fuel r + 1
      | none => 0

/-- `countLeadingClosings(trimmed)`: the greedy run of closing tags and/or
closing braces at the start of the line.  Every successful parse consumes at
least one character, so `l.length` steps of fuel always suffice. -/
def countLeadingClosings (l : Str) : Nat := countLeadingClosingsF l.length l

/-- `isHtmlLine(trimmed)`. -/
def isHtmlLine (trimmed : Str) : Bool :=
  let lower := jsToLower trimmed
  if leadsWith lower ['<'] then true
  else if leadsWith lower ['@', ':'] then
    leadsWith (wTrimStart (lower.drop 2)) ['<']
  else false

/-- `isLineOpeningTag(trimmed, tagName)`. -/
def isLineOpeningTag (trimmed : Str) (tagName : Str) : Bool :=
  let lower := jsToLower trimmed
  if leadsWith lower ('<' :: tagName) then true
  else if leadsWith lower ['@', ':'] then
    leadsWith (wTrimStart (lower.drop 2)) ('<' :: tagName)
  else false

/-- `isLineClosingTag(trimmed, tagName)`. -/
def isLineClosingTag (trimmed : Str) (tagName : Str) : Bool :=
  let lower := jsToLower trimmed
  if leadsWith lower ('<' :: '/' :: tagName) then true
  else if leadsWith lower ['@', ':'] then
    leadsWith (wTrimStart (lower.drop 2)) ('<' :: '/' :: tagName)
  else false

/-- `countLeadingBraceClosings(trimmed)`: strip an optional `^@:\s*`
text-output marker, then count the run of literal `}`. -/
def countLeadingBraceClosings (trimmed : Str) : Nat :=
  let rest := if leadsWith trimmed ['@', ':'] then wTrimStart (trimmed.drop 2) else trimmed
  (rest.takeWhile (fun c => c == '}')).length

/-- `^switch\s*\((.*)\)\s*\{\s*$`: if the whole line is a switch header,
return the raw capture between the `(` and the matching final `)`.  The
greedy `(.*)` captures up to the rightmost `)` that leaves only `\s*\{\s*`
behind; that trailer contains no `)`, so parsing the line from its right end
finds exactly that split.  `.` matches no line terminator, so a terminator
inside the capture defeats the whole match (the `\s` parts do match them). -/
def switchHeaderSplit (l : Str) : Option Str :=
  match consumeExact ['s', 'w', 'i', 't', 'c', 'h'] l with
  | none => none
  | some r =>
    match wTrimStart r with
    | '(' :: r2 =>
      match r2.reverse.dropWhile jsIsSpace with
      | '{' :: rev2 =>
        match rev2.dropWhile jsIsSpace with
        | ')' :: rev3 =>
          let inner := rev3.reverse
          if inner.any isLineTerm then none else some inner
        | _ => none
      | _ => none
    | _ => none

/-- `normalizeSwitchSpacing(line)`. -/
def normalizeSwitchSpacing (line : Str) : Str :=
  match switchHeaderSplit line with
  | some inner => ("switch (".data) ++ jsTrim inner ++ (") \x7b".data)
  | none => line

/-- `formatRawLineContent(rest)`: canonicalize a raw-block `switch (...) {`
header's spacing; all other lines pass through unchanged. -/
def formatRawLineContent (rest : Str) : Str :=
  match switchHeaderSplit (wTrimStart rest) with
  | some inner => ("switch (".data) ++ jsTrim inner ++ (") \x7b".data)
  | none => rest

/-- `normalizeForValidation(line)`: strip leading whitespace, canonicalize a
leading text-output marker (`^@:\s*` ↦ `@:`), canonicalize a switch header's
spacing. -/
def normalizeForValidation (line : Str) : Str :=
  let n := wTrimStart line
  let n2 := if leadsWith n ['@', ':'] then '@' :: ':' :: wTrimStart (n.drop 2) else n
  normalizeSwitchSpacing n2

/-- `makeIndentedLine(rest, indentWidth)`. -/
def makeIndentedLine (rest : Str) (indentWidth : Int) : Str :=
  if indentWidth ≤ 0 then rest
  else List.replicate indentWidth.toNat ' ' ++ rest

/-- `makeRazorTextIndentedLine(rest, indentWidth, contentIndentWidth)`.
The source matches `rest` against `^@:([\s]*)(.*)$`; the match fails (and the
plain `makeIndentedLine` fall-back runs) when `rest` does not start with `@:`
or when a line terminator survives after the greedy whitespace run.  All
reachable widths are non-negative, so `Int.toNat` models `' '.repeat`. -/
def makeRazorTextIndentedLine (rest : Str) (indentWidth contentIndentWidth : Int) : Str :=
  if !leadsWith rest ['@', ':'] then makeIndentedLine rest indentWidth
  else
    let content := wTrimStart (rest.drop 2)
    if content.any isLineTerm then makeIndentedLine rest indentWidth
    else
      let lineIndent : Str := if indentWidth > 0 then List.replicate indentWidth.toNat ' ' else []
      if content.isEmpty then lineIndent ++ ['@', ':']
      else
        lineIndent ++ ('@' :: ':' :: ' ' :: List.replicate contentIndentWidth.toNat ' ') ++
          wTrimStart content

/-- `countIndentWidth(leading, indentSize)`: a tab counts one full indent
unit, any other whitespace character one column. -/
def countIndentWidth (leading : Str) (indentSize : Int) : Int :=
  leading.foldl (fun w ch => if ch == '\t' then w + indentSize else w + 1) 0

structure LineInfo where
  original : Str
  leading : Str
  rest : Str
  leadingWidth : Int
deriving Repr, DecidableEq

/-- `analyzeLine(line, indentSize)`: split a line into leading whitespace and
rest via `^(\s*)(.*)$`.  The greedy match takes the maximal whitespace
prefix; if a line terminator (which `.` cannot match) survives in the
remainder the whole match fails, and the source falls back to
`{ leading: '', rest: line, leadingWidth: 0 }`. -/
def analyzeLine (line : Str) (indentSize : Int) : LineInfo :=
  let leading := line.takeWhile jsIsSpace
  let rest := line.dropWhile jsIsSpace
  if rest.any isLineTerm then ⟨line, [], line, 0⟩
  else ⟨line, leading, rest, countIndentWidth leading indentSize⟩

/-- `sanitizeIndentSize(value)`: non-positive values fall back to 2
(`Math.floor` is the identity on the integers modelled here; non-finite
doubles have no counterpart). -/
def sanitizeIndentSize (value : Int) : Int :=
  if value ≤ 0 then 2 else value

/-- `input.split(/\r\n|\n/)`. -/
def splitDoc : Str → List Str
  | [] => [[]]
  | '\r' :: '\n' :: t => [] :: splitDoc t
  | '\n' :: t => [] :: splitDoc t
  | c :: t =>
    match splitDoc t with
    | [] => [[c]]
    | h :: r => (c :: h) :: r

/-- `input.includes('\r\n')`. -/
def hasCRLF : Str → Bool
  | [] => false
  | '\r' :: '\n' :: _ => true
  | _ :: t => hasCRLF t

/-- `splitLines(input)`: the logical lines and the detected line ending. -/
def splitLines (input : Str) : List Str × Str :=
  (splitDoc input, if hasCRLF input then ['\r', '\n'] else ['\n'])

/-- `lines.join(lineEnding)`. -/
def joinLines (sep : Str) : List Str → Str
  | [] => []
  | [l] => l
  | l :: r => l ++ sep ++ joinLines sep r

structure TextBlock where
  startLine : Nat
  endLine : Nat
  parentLevel : Int
  tagName : Str
  skip : Bool
deriving Repr, DecidableEq

structure RawLineMeta where
  isRawBlock : Bool
  isCaseOrDefault : Bool
  isBreak : Bool
  isSwitchLine : Bool
deriving Repr, DecidableEq

/-- The mutable locals of `formatText`'s document loop.  `switchDepths` is a
stack with its top at the head (JS pushes and pops at the array's end);
completed `textBlocks` accumulate in push order. -/
structure DocState where
  level : Int
  inComment : Bool
  inRawTag : Option Str
  inTextBlock : Bool
  currentTextBlock : Option TextBlock
  inRawBlock : Bool
  inBlockComment : Bool
  switchDepths : List Int
  caseIndentDepth : Option Int
  pendingSwitch : Bool
  textBlocks : List TextBlock
deriving Repr, DecidableEq

def initDocState : DocState :=
  ⟨0, false, none, false, none, false, false, [], none, false, []⟩

/-- What the tag/brace scanning part of a document step produced (source
lines 118–154): the possibly adjusted leading-closing count, the open/close
totals, the brace-counter result and the new raw-tag state. -/
structure ScanOut where
  lcc : Nat
  openCount : Nat
  closeCount : Nat
  braceRes : BraceOut
  rawTagN : Option Str
deriving Repr, DecidableEq

/-- Source lines 118–154: leading closings, the pending raw tag's close, tag
extraction for markup lines, and the brace counter. -/
def docScanLine (trimmed cleanLine rawLine : Str) (inComment inBlockComment : Bool)
    (rawTag : Option Str) : ScanOut :=
  let lcc0 := countLeadingClosings trimmed
  match rawTag with
  | some rt =>
    if containsClosingTag cleanLine rt then
      let lcc := if lcc0 == 0 && leadsWith trimmed ('<' :: '/' :: rt) then 1 else lcc0
      ⟨lcc, 0, 1, ⟨0, 0, inBlockComment⟩, none⟩
    else ⟨lcc0, 0, 0, ⟨0, 0, inBlockComment⟩, some rt⟩
  | none =>
    if !inComment then
      let tags := if isHtmlLine trimmed then extractTags cleanLine else []
      let tagAcc := tags.foldl
        (fun (acc : Nat × Nat × Option Str) tag =>
          if tag.isClosing then (acc.1, acc.2.1 + 1, acc.2.2)
          else if tag.isSelfClosing then acc
          else (acc.1 + 1, acc.2.1,
            if RAW_TAGS.contains tag.name then some tag.name else acc.2.2))
        (0, 0, none)
      let br := countBraces rawLine inBlockComment
      ⟨lcc0, tagAcc.1 + br.opens, tagAcc.2.1 + br.closes, br, tagAcc.2.2⟩
    else ⟨lcc0, 0, 0, ⟨0, 0, inBlockComment⟩, none⟩

/-- Source lines 91–99: close a pending `<text>` block when its close marker
appears on this line. -/
def docCloseText (i : Nat) (hasTextClose : Bool) (st : DocState) : DocState :=
  if st.inTextBlock && hasTextClose then
    { st with
      inTextBlock := false
      textBlocks := st.textBlocks ++
        (match st.currentTextBlock with
         | some b => [{ b with endLine := i - 1 }]
         | none => [])
      currentTextBlock := none }
  else st

/-- Source lines 100–107: close a pending raw block when its close marker
appears on this line. -/
def docCloseRaw (i : Nat) (hasRawClose : Bool) (st : DocState) : DocState :=
  if st.inRawBlock && hasRawClose then
    { st with
      inRawBlock := false
      textBlocks := st.textBlocks ++
        (match st.currentTextBlock with
         | some b => [{ b with endLine := i - 1 }]
         | none => [])
      currentTextBlock := none }
  else st

/-- The block-closing phase of a document step (source lines 89–107): both
close markers are tested against the state as it was at the top of the
iteration. -/
def docAfterClose (i : Nat) (line : Str) (info : LineInfo) (st : DocState) : DocState :=
  docCloseRaw i
    (st.inRawBlock &&
      containsClosingTag line ((st.currentTextBlock.map TextBlock.tagName).getD []))
    (docCloseText i (hasTextCloseMarker (wTrimStart info.rest)) st)

/-- The per-line facts a non-captured document step derives before updating
the state (source lines 114–170). -/
structure DocLineView where
  trimmed : Str
  inComment : Bool
  scan : ScanOut
  isHtml : Bool
  codeTrimmed : Str
  isSwitchLine : Bool
  isCaseOrDefault : Bool
  isClosingBraceLine : Bool
  inSwitch : Bool
  nextLevel : Int
  closesSwitch : Bool
  effectiveLevel : Int
deriving Repr, DecidableEq

def docLineView (line : Str) (info : LineInfo) (st : DocState) : DocLineView :=
  let trimmed := wTrimStart info.rest
  let sc := stripHtmlComments line st.inComment
  let so := docScanLine trimmed sc.1 info.rest sc.2 st.inBlockComment st.inRawTag
  let isHtml := isHtmlLine trimmed
  let isRazorLine := leadsWith trimmed ['@']
  let isRazorTextLine := leadsWith trimmed ['@', ':']
  let razorTextContent := if isRazorTextLine then wTrimStart (trimmed.drop 2) else []
  let codeTrimmed := if isRazorTextLine then razorTextContent
    else if isRazorLine then [] else trimmed
  let isSwitchLine := !isHtml && isSwitchStart codeTrimmed
  let isCaseOrDefault := !isHtml && (isCaseStart codeTrimmed || isDefaultStart codeTrimmed)
  let isClosingBraceLine := !isHtml && leadsWith codeTrimmed ['}']
  let inSwitch := match st.switchDepths with
    | [] => false
    | top :: _ => decide (st.level ≥ top)
  let nextLevel := max 0 (st.level - (so.closeCount : Int) + (so.openCount : Int))
  let closesSwitch := isClosingBraceLine && (match st.switchDepths with
    | [] => false
    | top :: _ => decide (nextLevel < top))
  ⟨trimmed, sc.2, so, isHtml, codeTrimmed, isSwitchLine, isCaseOrDefault,
   isClosingBraceLine, inSwitch, nextLevel, closesSwitch, max 0 (st.level - (so.lcc : Int))⟩

/-- The extra-indent condition of source line 173: a switch body is open, a
case/default label has been seen in it, and this line is neither a label nor
the closing-brace line of that switch. -/
def docSwitchExtra (v : DocLineView) (st : DocState) : Bool :=
  v.inSwitch && st.caseIndentDepth.isSome && !v.isCaseOrDefault && !v.closesSwitch

/-- The state updates of source lines 178–207, given the line facts. -/
def docAdvance (v : DocLineView) (st : DocState) : DocState :=
  let hasOpen := v.scan.braceRes.opens != 0
  let push1 := if v.isSwitchLine then
      if hasOpen then (v.nextLevel :: st.switchDepths, false, false)
      else (st.switchDepths, true, true)
    else (st.switchDepths, st.pendingSwitch, false)
  let depths1 := push1.1
  let pending1 := push1.2.1
  let setThisLine := push1.2.2
  let push2 := if pending1 && hasOpen && leadsWith v.codeTrimmed ['{'] then
      (v.nextLevel :: depths1, false)
    else (depths1, pending1)
  let depths2 := push2.1
  let pending2 := push2.2
  let pending3 :=
    if !setThisLine && pending2 && !v.codeTrimmed.isEmpty && !leadsWith v.codeTrimmed ['{'] then
      false
    else pending2
  let caseDepth1 := if v.inSwitch && v.isCaseOrDefault then some st.level else st.caseIndentDepth
  let depths3 := depths2.dropWhile (fun d => decide (v.nextLevel < d))
  let caseDepth2 := match caseDepth1 with
    | some d => if v.nextLevel < d then none else some d
    | none => none
  { st with
    level := v.nextLevel
    inComment := v.inComment
    inBlockComment := v.scan.braceRes.inBlockComment
    inRawTag := v.scan.rawTagN
    switchDepths := depths3
    caseIndentDepth := caseDepth2
    pendingSwitch := pending3 }

/-- The block-opening checks of source lines 209–238. -/
def docOpenBlocks (i : Nat) (trimmed : Str) (nextLevel : Int) (st : DocState) : DocState :=
  let st1 := if isLineOpeningTag trimmed ("text".data) &&
      !isLineClosingTag trimmed ("text".data) then
      { st with
        inTextBlock := true
        currentTextBlock := some ⟨i + 1, i, max 0 (nextLevel - 1), "text".data, false⟩ }
    else st
  let st2 := if isLineOpeningTag trimmed ("script".data) &&
      !isLineClosingTag trimmed ("script".data) then
      { st1 with
        inRawBlock := true
        currentTextBlock := some ⟨i + 1, i, max 0 (nextLevel - 1), "script".data, false⟩ }
    else st1
  if isLineOpeningTag trimmed ("style".data) &&
      !isLineClosingTag trimmed ("style".data) then
    { st2 with
      inRawBlock := true
      currentTextBlock := some ⟨i + 1, i, max 0 (nextLevel - 1), "style".data, false⟩ }
  else st2

/-- One iteration of `formatText`'s document loop (source lines 84–239) at
line index `i`: the updated state plus the line's desired indent (`none`
while the line is captured inside a text/raw block). -/
def docStep (u : Int) (i : Nat) (line : Str) (info : LineInfo) (st : DocState) :
    DocState × Option Int :=
  let stC := docAfterClose i line info st
  if stC.inTextBlock || stC.inRawBlock then (stC, none)
  else
    let v := docLineView line info stC
    let lineIndent := v.effectiveLevel * u + (if docSwitchExtra v stC then u else 0)
    (docOpenBlocks i v.trimmed v.nextLevel (docAdvance v stC), some lineIndent)

/-- The document loop run from line index `i`. -/
def docScanFrom (u : Int) : Nat → List Str → List LineInfo → DocState →
    DocState × List (Option Int)
  | _, [], _, st => (st, [])
  | _, _ :: _, [], st => (st, [])
  | i, line :: rest, info :: irest, st =>
    let s1 := docStep u i line info st
    let s2 := docScanFrom u (i + 1) rest irest s1.1
    (s2.1, s1.2 :: s2.2)

/-- Source lines 241–245: an unterminated `<text>` block is pushed with
`skip = true`; an unterminated raw block is not pushed at all. -/
def finishDocBlocks (n : Nat) (st : DocState) : List TextBlock :=
  if st.inTextBlock then
    match st.currentTextBlock with
    | some b => st.textBlocks ++ [{ b with endLine := n - 1, skip := true }]
    | none => st.textBlocks
  else st.textBlocks

/-- The per-block locals of `applyTextBlockIndentation`'s nested pass. -/
structure BlockState where
  switchDepths : List Int
  level : Int
  inBlockComment : Bool
  razorBraceDepth : Int
  inRazorCodeBlock : Bool
  caseIndentDepth : Option Int
  pendingSwitch : Bool
  razorTextGroupBaseLevel : Option Int
deriving Repr, DecidableEq

def initBlockState : BlockState := ⟨[], 0, false, 0, false, none, false, none⟩

/-- What the nested pass records for one line: the desired indent, the
text-output (`indentAfterRazorPrefix`) flag, the content offset of a
text-output line, and the line's `rawLineMeta` entry. -/
structure BlockLineOut where
  desired : Int
  razorFlag : Bool
  contentIndent : Int
  meta : Option RawLineMeta
deriving Repr, DecidableEq

/-- The per-line facts of the nested pass (source lines 510–535). -/
structure BlockLineView where
  trimmed : Str
  jsTrimmed : Str
  isRazorTextLine : Bool
  lineInRazorBlock : Bool
  isSwitchLine : Bool
  isCaseOrDefault : Bool
  isBreakLine : Bool
  isClosingBraceLine : Bool
  inSwitch : Bool
  braceResult : BraceOut
  nextLevel : Int
  closesSwitch : Bool
  effectiveLevel : Int
deriving Repr, DecidableEq

def blockLineView (isRawBlock : Bool) (info : LineInfo) (st : BlockState) : BlockLineView :=
  let trimmed := wTrimStart info.rest
  let leadingCloseCount := countLeadingBraceClosings trimmed
  let effectiveLevel := max 0 (st.level - (if leadingCloseCount > 0 then 1 else 0))
  let isRazorLine := leadsWith trimmed ['@']
  let isRazorTextLine := leadsWith trimmed ['@', ':']
  let isRazorDirectiveLine := isRazorLine && !isRazorTextLine
  let lineInRazorBlock := isRawBlock && (st.inRazorCodeBlock || isRazorDirectiveLine)
  let razorTextContent := if isRazorTextLine then wTrimStart (trimmed.drop 2) else []
  let jsTrimmed := if isRazorTextLine then razorTextContent
    else if isRazorLine then [] else trimmed
  let isSwitchLine := isRawBlock && isSwitchStart jsTrimmed
  let isCaseOrDefault := isRawBlock && (isCaseStart jsTrimmed || isDefaultStart jsTrimmed)
  let isBreakLine := isRawBlock && isBreakStart jsTrimmed
  let isClosingBraceLine := isRawBlock && leadsWith jsTrimmed ['}']
  let inSwitch := isRawBlock && (match st.switchDepths with
    | [] => false
    | top :: _ => decide (st.level ≥ top))
  let braceResult := countBraces info.rest st.inBlockComment
  let nextLevel := max 0 (st.level + (braceResult.opens : Int) - (braceResult.closes : Int))
  let closesSwitch := isClosingBraceLine && (match st.switchDepths with
    | [] => false
    | top :: _ => decide (nextLevel < top))
  ⟨trimmed, jsTrimmed, isRazorTextLine, lineInRazorBlock, isSwitchLine, isCaseOrDefault,
   isBreakLine, isClosingBraceLine, inSwitch, braceResult, nextLevel, closesSwitch,
   effectiveLevel⟩

/-- The extra-indent condition of source line 533. -/
def blockSwitchExtra (v : BlockLineView) (st : BlockState) : Bool :=
  v.inSwitch && st.caseIndentDepth.isSome && !v.isCaseOrDefault && !v.closesSwitch

/-- The state updates of source lines 562–598, given the line facts. -/
def blockAdvance (isRawBlock : Bool) (v : BlockLineView) (groupBase1 : Option Int)
    (st : BlockState) : BlockState :=
  let razorDepthPart :=
    if v.lineInRazorBlock then
      let d := max 0 (st.razorBraceDepth + (v.braceResult.opens : Int) -
        (v.braceResult.closes : Int))
      (d, decide (d > 0))
    else (st.razorBraceDepth, st.inRazorCodeBlock)
  let hasOpen := v.braceResult.opens != 0
  let push1 := if isRawBlock && v.isSwitchLine then
      if hasOpen then (v.nextLevel :: st.switchDepths, false, false)
      else (st.switchDepths, true, true)
    else (st.switchDepths, st.pendingSwitch, false)
  let depths1 := push1.1
  let pending1 := push1.2.1
  let setThisLine := push1.2.2
  let push2 := if isRawBlock && pending1 && hasOpen && leadsWith v.jsTrimmed ['{'] then
      (v.nextLevel :: depths1, false)
    else (depths1, pending1)
  let depths2 := push2.1
  let pending2 := push2.2
  let pending3 :=
    if !setThisLine && pending2 && !v.jsTrimmed.isEmpty && !leadsWith v.jsTrimmed ['{'] then
      false
    else pending2
  let caseDepth1 := if v.inSwitch && v.isCaseOrDefault then some st.level else st.caseIndentDepth
  let depths3 := depths2.dropWhile (fun d => decide (v.nextLevel < d))
  let caseDepth2 := match caseDepth1 with
    | some d => if v.nextLevel < d then none else some d
    | none => none
  ⟨depths3, v.nextLevel, v.braceResult.inBlockComment, razorDepthPart.1, razorDepthPart.2,
   caseDepth2, pending3, groupBase1⟩

/-- One line of `applyTextBlockIndentation`'s nested pass (source lines
494–599). -/
def blockStep (u : Int) (isRawBlock : Bool) (baseIndent : Int) (info : LineInfo)
    (st : BlockState) : BlockState × BlockLineOut :=
  if info.rest.isEmpty then
    ({ st with razorTextGroupBaseLevel := none },
     ⟨0, false, 0, if isRawBlock then some ⟨true, false, false, false⟩ else none⟩)
  else
    let v := blockLineView isRawBlock info st
    let extra := blockSwitchExtra v st
    let lineIndent0 := baseIndent + v.effectiveLevel * u + (if extra then u else 0)
    let razorPart :=
      if isRawBlock && v.isRazorTextLine then
        let g := st.razorTextGroupBaseLevel.getD v.effectiveLevel
        let ci0 := max 0 ((v.effectiveLevel - g) * u)
        let ci := if extra then ci0 + u else ci0
        (some g, baseIndent + g * u, true, ci)
      else if isRawBlock then (none, lineIndent0, false, 0)
      else (st.razorTextGroupBaseLevel, lineIndent0, false, 0)
    let meta := if isRawBlock then
        some ⟨true, v.inSwitch && v.isCaseOrDefault, v.inSwitch && v.isBreakLine,
              v.inSwitch && v.isSwitchLine⟩
      else none
    (blockAdvance isRawBlock v razorPart.1 st,
     ⟨razorPart.2.1, razorPart.2.2.1, razorPart.2.2.2, meta⟩)

/-- The four per-line tables the text-block pass fills in (`desiredIndents`,
`indentAfterRazorPrefix`, `razorTextContentIndents`, `rawLineMeta`). -/
structure Tables where
  desireds : List (Option Int)
  razorFlags : List Bool
  contentIndents : List Int
  metas : List (Option RawLineMeta)
deriving Repr, DecidableEq

def emptyLineInfo : LineInfo := ⟨[], [], [], 0⟩

/-- `applySingleTextBlockOriginalIndent(block, desiredIndents, lineInfos)`. -/
def applySingleTextBlockOriginalIndent (block : TextBlock) (lineInfos : List LineInfo)
    (desireds : List (Option Int)) : List (Option Int) :=
  (List.range' block.startLine (block.endLine + 1 - block.startLine)).foldl
    (fun ds idx => ds.set idx (some (((lineInfos.get? idx).getD emptyLineInfo).leadingWidth)))
    desireds

/-- The scanning loop of `shouldPreserveRawBlockIndent`, with its early
return once both flags hold. -/
def shouldPreserveScan (lineInfos : List LineInfo) :
    List Nat → Bool → Bool → Int → Bool
  | [], _, _, _ => false
  | idx :: rest, hasDir, hasPlain, depth =>
    let info := (lineInfos.get? idx).getD emptyLineInfo
    let trimmed := wTrimStart info.rest
    if trimmed.isEmpty then shouldPreserveScan lineInfos rest hasDir hasPlain depth
    else
      let isRazorTextLine := leadsWith trimmed ['@', ':']
      let isRazorDirectiveLine := leadsWith trimmed ['@'] && !isRazorTextLine
      let inRazorBlock := decide (depth > 0) || isRazorDirectiveLine
      let hasDir1 := hasDir || isRazorDirectiveLine
      let hasPlain1 := hasPlain || (!leadsWith trimmed ['@'] && !inRazorBlock)
      let depth1 := if inRazorBlock then
          let br := countBraces info.rest false
          max 0 (depth + (br.opens : Int) - (br.closes : Int))
        else depth
      if hasDir1 && hasPlain1 then true
      else shouldPreserveScan lineInfos rest hasDir1 hasPlain1 depth1

/-- `shouldPreserveRawBlockIndent(block, lineInfos)`: does the raw block mix
a directive code line with a plain non-directive line (the ambiguous-remix
heuristic)? -/
def shouldPreserveRawBlockIndent (block : TextBlock) (lineInfos : List LineInfo) : Bool :=
  shouldPreserveScan lineInfos
    (List.range' block.startLine (block.endLine + 1 - block.startLine)) false false 0

/-- The nested pass of `applyTextBlockIndentation` over one block's line
indices, writing into the tables. -/
def runBlockLines (u : Int) (isRawBlock : Bool) (baseIndent : Int)
    (lineInfos : List LineInfo) : List Nat → BlockState → Tables → Tables
  | [], _, tbl => tbl
  | idx :: rest, st, tbl =>
    let info := (lineInfos.get? idx).getD emptyLineInfo
    let s := blockStep u isRawBlock baseIndent info st
    let o := s.2
    let tbl1 : Tables :=
      ⟨tbl.desireds.set idx (some o.desired),
       if o.razorFlag then tbl.razorFlags.set idx true else tbl.razorFlags,
       if o.razorFlag then tbl.contentIndents.set idx o.contentIndent else tbl.contentIndents,
       match o.meta with
       | some m => tbl.metas.set idx (some m)
       | none => tbl.metas⟩
    runBlockLines u isRawBlock baseIndent lineInfos rest s.1 tbl1

/-- Source line 484: the base indentation offset of a re-indented block. -/
def blockBaseIndent (u : Int) (block : TextBlock) : Int :=
  block.parentLevel * u +
    (if RAW_TAGS.contains block.tagName && block.parentLevel == 0 then 0 else u)

/-- Processing of one captured block (the body of `applyTextBlockIndentation`'s
block loop, source lines 473–600). -/
def applyOneBlock (u : Int) (lineInfos : List LineInfo) (tbl : Tables)
    (block : TextBlock) : Tables :=
  if block.skip || decide (block.endLine < block.startLine) then
    { tbl with desireds := applySingleTextBlockOriginalIndent block lineInfos tbl.desireds }
  else
    let isRawBlock := RAW_TAGS.contains block.tagName
    if isRawBlock && shouldPreserveRawBlockIndent block lineInfos then
      { tbl with desireds := applySingleTextBlockOriginalIndent block lineInfos tbl.desireds }
    else
      runBlockLines u isRawBlock (blockBaseIndent u block) lineInfos
        (List.range' block.startLine (block.endLine + 1 - block.startLine))
        initBlockState tbl

/-- `applyTextBlockIndentation` (source lines 464–601). -/
def applyTextBlockIndentation (u : Int) (blocks : List TextBlock)
    (lineInfos : List LineInfo) (tbl : Tables) : Tables :=
  blocks.foldl (applyOneBlock u lineInfos) tbl

/-- `applyTextBlockOriginalIndent(blocks, desiredIndents, lineInfos)` — the
path taken when text-block adjustment is disabled. -/
def applyTextBlockOriginalIndent (blocks : List TextBlock) (lineInfos : List LineInfo)
    (desireds : List (Option Int)) : List (Option Int) :=
  blocks.foldl (fun ds block => applySingleTextBlockOriginalIndent block lineInfos ds) desireds

/-- `lines[i].match(/^(\s*)@:/)`: the whitespace run, when `@:` follows it. -/
def razorLineLead (l : Str) : Option Str :=
  if leadsWith (l.dropWhile jsIsSpace) ['@', ':'] then some (l.takeWhile jsIsSpace)
  else none

/-- A line the layouter/validator treats as blank: empty after `trim`, or a
bare `@:` marker. -/
def isSepLine (l : Str) : Bool :=
  let t := jsTrim l
  t.isEmpty || t == ['@', ':']

/-- The walk of `insertSwitchBlankLines` (source lines 668–715), returning
the new line list and the number of inserted separator lines (the source's
`insertedBlankLines` boolean is `count ≠ 0`). -/
def insertWalk : Bool → Bool → Bool → List (Str × Option RawLineMeta) → List Str × Nat
  | _, _, _, [] => ([], 0)
  | inRaw, prevBreak, prevBlank, (ln, m) :: rest =>
    match m with
    | none =>
      let r := insertWalk false false false rest
      (ln :: r.1, r.2)
    | some meta =>
      if !meta.isRawBlock then
        let r := insertWalk false false false rest
        (ln :: r.1, r.2)
      else
        let pb := if inRaw then prevBreak else false
        let pbl := if inRaw then prevBlank else false
        let ins : List Str :=
          if meta.isCaseOrDefault && pb && !pbl then
            match razorLineLead ln with
            | some ws => [ws ++ ['@', ':']]
            | none => [[]]
          else []
        let isBlank := isSepLine ln
        let pb1 := if isBlank then pb else meta.isBreak
        let r := insertWalk true pb1 isBlank rest
        (ins ++ ln :: r.1, r.2 + ins.length)

/-- `insertSwitchBlankLines(lines, rawLineMeta)`. -/
def insertSwitchBlankLines (lines : List Str) (metas : List (Option RawLineMeta)) :
    List Str × Nat :=
  insertWalk false false false (lines.zip metas)

structure ValidationOutcome where
  ok : Bool
  message : String
deriving Repr, DecidableEq

def lineCountMsg : String := "Validation failed: line count changed."

def failMsg (changed : List String) : String :=
  "Validation failed: non-indentation content changed on line(s) " ++
    String.intercalate (", ") changed ++ "."

/-- The two-pointer walk of `validateOutput` (source lines 751–793): the
recorded 1-based offending line numbers, plus the output lines left over
when the originals ran out.  Leftover original lines are recorded inside the
walk, as the source's follow-up loop does. -/
def validateWalk (allow : Bool) : Nat → List Str → List Str → List String × List Str
  | _, [], outs => ([], outs)
  | i, o :: os, [] =>
    ((List.range (o :: os).length).map (fun k => toString (i + k + 1)), [])
  | i, o :: os, outLn :: outs =>
    if allow && isSepLine outLn then
      if isSepLine o then validateWalk allow (i + 1) os outs
      else validateWalk allow i (o :: os) outs
    else
      let r := validateWalk allow (i + 1) os outs
      ((if normalizeForValidation o != normalizeForValidation outLn
        then [toString (i + 1)] else []) ++ r.1, r.2)

/-- `validateOutput(lineInfos, outputLines, allowBlankLineInsert)`. -/
def validateOutput (lineInfos : List LineInfo) (outputLines : List Str)
    (allow : Bool) : ValidationOutcome :=
  let originalLines := lineInfos.map LineInfo.original
  if !allow && originalLines.length != outputLines.length then
    ⟨false, lineCountMsg⟩
  else
    let w := validateWalk allow 0 originalLines outputLines
    if !allow && !w.2.isEmpty then ⟨false, lineCountMsg⟩
    else
      let changed := w.1 ++
        (if allow && w.2.any (fun l => !isSepLine l) then
          [toString originalLines.length] else [])
      if !changed.isEmpty then ⟨false, failMsg changed⟩
      else ⟨true, ""⟩

structure FormatOptions where
  indentSize : Int
  adjustTextBlocks : Bool
deriving Repr, DecidableEq

structure FormatResult where
  output : String
  logs : List String
  error : Option String
deriving Repr, DecidableEq

/-- `outputLines` rendering (source lines 267–277) for one line. -/
def renderLine (info : LineInfo) (desired : Int) (razorFlag : Bool)
    (contentIndent : Int) (meta : Option RawLineMeta) : Str :=
  let rest0 := info.rest
  let rest := if (match meta with | some m => m.isRawBlock | none => false) && !razorFlag
    then formatRawLineContent rest0
    else rest0
  if razorFlag then makeRazorTextIndentedLine rest desired contentIndent
  else makeIndentedLine rest desired

/-- Render all lines (the `lines.map` of source lines 267–277). -/
def renderAll : List LineInfo → List Int → List Bool → List Int →
    List (Option RawLineMeta) → List Str
  | info :: is, d :: ds, f :: fs, c :: cs, m :: ms =>
    renderLine info d f c m :: renderAll is ds fs cs ms
  | _, _, _, _, _ => []

/-- Every intermediate stage of one `formatText` run, so theorems can speak
about the scanner, the tables, the rendered lines and the validator of the
same run. -/
structure Pipeline where
  indentSize : Int
  lines : List Str
  lineEnding : Str
  lineInfos : List LineInfo
  scanEnd : DocState
  blocks : List TextBlock
  docDesireds : List (Option Int)
  tables : Tables
  desiredsFilled : List Int
  outputLines : List Str
  finalLines : List Str
  insertCount : Nat
  validation : ValidationOutcome

/-- The whole computation of `formatText` up to (and including) validation. -/
def makePipeline (input : Str) (options : FormatOptions) : Pipeline :=
  let u := sanitizeIndentSize options.indentSize
  let sp := splitLines input
  let lines := sp.1
  let lineInfos := lines.map (fun l => analyzeLine l u)
  let scan := docScanFrom u 0 lines lineInfos initDocState
  let blocks := finishDocBlocks lines.length scan.1
  let n := lines.length
  let tbl0 : Tables :=
    ⟨scan.2, List.replicate n false, List.replicate n 0, List.replicate n none⟩
  let tbl := if options.adjustTextBlocks then
      applyTextBlockIndentation u blocks lineInfos tbl0
    else
      { tbl0 with desireds := applyTextBlockOriginalIndent blocks lineInfos tbl0.desireds }
  let desiredsFilled := (tbl.desireds.zip lineInfos).map (fun p => p.1.getD p.2.leadingWidth)
  let outputLines := renderAll lineInfos desiredsFilled tbl.razorFlags tbl.contentIndents
    tbl.metas
  let isw := insertSwitchBlankLines outputLines tbl.metas
  let validation := validateOutput lineInfos isw.1 (isw.2 != 0)
  ⟨u, lines, sp.2, lineInfos, scan.1, blocks, scan.2, tbl, desiredsFilled, outputLines,
   isw.1, isw.2, validation⟩

/-- The per-line change records of `formatText`'s success path (source lines
293–301). -/
def changeRecords (lineInfos : List LineInfo) (desireds : List Int) : List String :=
  ((lineInfos.zip desireds).enum).filterMap fun p =>
    if p.2.1.leadingWidth != p.2.2 then
      some ("Line " ++ toString (p.1 + 1) ++ ": " ++ toString p.2.1.leadingWidth ++
        " -> " ++ toString p.2.2)
    else none

def okFirstLog : String := "Validation ok: non-leading content unchanged."

def noChangesLog : String := "No indentation changes detected."

/-- `formatText(input, options)` (source lines 59–308).  On success the log
starts with the validation-ok record and then the change records; the
source's final `if (logs.length === 0)` fallback is kept, though the first
push already made the list non-empty. -/
def formatText (input : String) (options : FormatOptions) : FormatResult :=
  let p := makePipeline input.data options
  if p.validation.ok then
    let logs1 := okFirstLog :: changeRecords p.lineInfos p.desiredsFilled
    let logs2 := if logs1.isEmpty then [noChangesLog] else logs1
    ⟨String.mk (joinLines p.lineEnding p.finalLines), logs2, none⟩
  else
    ⟨input, [], some p.validation.message⟩

/-! ## Definitions supporting the claim theorems -/

/-- Claim C5's width formula, stated from the spec's words (§4.3 step 7):
`max(0, currentLevel − leadingClosingCount) × indentUnit`, plus one extra
indent unit exactly when a switch body is open, a case/default label has
already been seen in it, and the line is neither itself such a label nor the
closing-brace line that ends that switch. -/
def specDesiredWidth (u currentLevel : Int) (leadingClosingCount : Nat)
    (switchBodyOpen caseSeen isLabelLine closesThatSwitch : Bool) : Int :=
  max 0 (currentLevel - (leadingClosingCount : Int)) * u +
    (if switchBodyOpen && caseSeen && !isLabelLine && !closesThatSwitch then u else 0)

/-- Every state of the document scan: the state entering each line, and the
final state. -/
def docStates (u : Int) : Nat → List Str → List LineInfo → DocState → List DocState
  | _, [], _, st => [st]
  | _, _ :: _, [], st => [st]
  | i, line :: rest, info :: irest, st =>
    st :: docStates u (i + 1) rest irest (docStep u i line info st).1

/-- Every state of one block's nested pass. -/
def blockStates (u : Int) (isRawBlock : Bool) (baseIndent : Int)
    (lineInfos : List LineInfo) : List Nat → BlockState → List BlockState
  | [], st => [st]
  | idx :: rest, st =>
    st :: blockStates u isRawBlock baseIndent lineInfos rest
      (blockStep u isRawBlock baseIndent ((lineInfos.get? idx).getD emptyLineInfo) st).1

/-- The document-scan states of one `formatText` run. -/
def pipelineDocStates (input : Str) (options : FormatOptions) : List DocState :=
  docStates (sanitizeIndentSize options.indentSize) 0 (splitLines input).1
    ((splitLines input).1.map (fun l => analyzeLine l (sanitizeIndentSize options.indentSize)))
    initDocState

/-- The nested-pass states of one captured block of a `formatText` run. -/
def pipelineBlockStates (input : Str) (options : FormatOptions) (b : TextBlock) :
    List BlockState :=
  blockStates (sanitizeIndentSize options.indentSize) (RAW_TAGS.contains b.tagName)
    (blockBaseIndent (sanitizeIndentSize options.indentSize) b)
    ((splitLines input).1.map (fun l => analyzeLine l (sanitizeIndentSize options.indentSize)))
    (List.range' b.startLine (b.endLine + 1 - b.startLine)) initBlockState

/-- Claim C1's alignment between original and output lines: matched pairs
agree after `normalizeForValidation` (leading whitespace stripped, the `@:`
marker's and a switch header's internal spacing canonicalized); inserted
blank / bare-`@:` separator lines may appear anywhere on the output side;
and a blank-ish original line may stand against a blank-ish output line. -/
inductive ValidAligned : List Str → List Str → Prop
  | nil : ValidAligned [] []
  | trail (out : Str) (outs : List Str) : isSepLine out = true →
      ValidAligned [] outs → ValidAligned [] (out :: outs)
  | matched (o : Str) (os : List Str) (out : Str) (outs : List Str) :
      normalizeForValidation o = normalizeForValidation out →
      ValidAligned os outs → ValidAligned (o :: os) (out :: outs)
  | inserted (o : Str) (os : List Str) (out : Str) (outs : List Str) :
      isSepLine out = true → ValidAligned (o :: os) outs →
      ValidAligned (o :: os) (out :: outs)
  | bothSep (o : Str) (os : List Str) (out : Str) (outs : List Str) :
      isSepLine out = true → isSepLine o = true → ValidAligned os outs →
      ValidAligned (o :: os) (out :: outs)

/-- The offending-line list `validateOutput` accumulates: the walk's
mismatches (leftover originals included) plus, when insertions were allowed,
a final record for trailing non-blank output. -/
def valChanged (lineInfos : List LineInfo) (outputLines : List Str) (allow : Bool) :
    List String :=
  (validateWalk allow 0 (lineInfos.map LineInfo.original) outputLines).1 ++
    (if allow &&
        (validateWalk allow 0 (lineInfos.map LineInfo.original) outputLines).2.any
          (fun l => !isSepLine l) then
      [toString (lineInfos.map LineInfo.original).length]
    else [])

/-- The offending-line list of one `formatText` run. -/
def pipeChanged (input : String) (options : FormatOptions) : List String :=
  valChanged (makePipeline input.data options).lineInfos
    (makePipeline input.data options).finalLines
    ((makePipeline input.data options).insertCount != 0)

/-- Structural facts the document scan maintains about captured blocks: every
completed block ends before the current line, completed blocks are pairwise
ordered and disjoint, their parent levels are non-negative, and an open
capture starts no later than the current line and after every completed
block. -/
def DocBlocksInv (i : Nat) (st : DocState) : Prop :=
  (∀ b ∈ st.textBlocks, b.endLine + 1 ≤ i ∧ 0 ≤ b.parentLevel) ∧
  st.textBlocks.Pairwise (fun a b => a.endLine < b.startLine) ∧
  (∀ c, st.currentTextBlock = some c →
    (∀ b ∈ st.textBlocks, b.endLine < c.startLine) ∧ c.startLine ≤ i ∧ 0 ≤ c.parentLevel)

/-- The nested pass keeps its level non-negative and its text-output group
anchor non-negative. -/
def BlockStInv (st : BlockState) : Prop :=
  0 ≤ st.level ∧ ∀ g, st.razorTextGroupBaseLevel = some g → 0 ≤ g

/-- A line whose leading whitespace run consists of spaces only. -/
def SpacesLead (l : Str) : Prop := ∀ c ∈ l.takeWhile jsIsSpace, c = ' '

/-- Concrete input of the idempotence counterexample: a carriage return
embedded in a line defeats the `^(\s*)(.*)$` split, so each pass prepends
another indentation run. -/
def idemInput : String := "<div>\n x\ry\n</div>"

/-- Concrete input showing a horizontal tab surviving into the output's
leading whitespace. -/
def tabCrInput : String := "\ta\rb"

/-- Concrete input whose raw block contains a switch: the statement under
the case label receives the switch-body extra indent unit on top of
`base + level × unit`. -/
def switchBlockInput : String := "<script>\nswitch (x) \x7b\ncase 1:\nfoo();\n\x7d\n</script>"

/-- Concrete input whose script block (captured at lines 2–3 inside a div)
mixes a razor directive line with a plain line: the ambiguous-remix
heuristic fires and the block keeps its original indentation. -/
def mixedRawInput : String := "<div>\n<script>\n  @foo\nbar\n</script>\n</div>"

/-! ## Theorems -/

theorem docLineView_effectiveLevel (line : Str) (info : LineInfo) (st : DocState) :
    (docLineView line info st).effectiveLevel =
      max 0 (st.level - ((docLineView line info st).scan.lcc : Int)) := rfl

theorem docLineView_nextLevel (line : Str) (info : LineInfo) (st : DocState) :
    (docLineView line info st).nextLevel =
      max 0 (st.level - ((docLineView line info st).scan.closeCount : Int) +
        ((docLineView line info st).scan.openCount : Int)) := rfl

theorem docCloseText_level (i : Nat) (h : Bool) (st : DocState) :
    (docCloseText i h st).level = st.level := by
  unfold docCloseText; split <;> rfl

theorem docCloseRaw_level (i : Nat) (h : Bool) (st : DocState) :
    (docCloseRaw i h st).level = st.level := by
  unfold docCloseRaw; split <;> rfl

theorem docAfterClose_level (i : Nat) (line : Str) (info : LineInfo) (st : DocState) :
    (docAfterClose i line info st).level = st.level := by
  unfold docAfterClose; rw [docCloseRaw_level, docCloseText_level]

theorem docAdvance_level (v : DocLineView) (st : DocState) :
    (docAdvance v st).level = v.nextLevel := rfl

theorem docOpenBlocks_level (i : Nat) (trimmed : Str) (nl : Int) (st : DocState) :
    (docOpenBlocks i trimmed nl st).level = st.level := by
  unfold docOpenBlocks; dsimp only; split_ifs <;> rfl

theorem docStep_level_nonneg (u : Int) (i : Nat) (line : Str) (info : LineInfo)
    (st : DocState) (h : 0 ≤ st.level) : 0 ≤ (docStep u i line info st).1.level := by
  unfold docStep; dsimp only
  split
  · rw [docAfterClose_level]; exact h
  · rw [docOpenBlocks_level, docAdvance_level, docLineView_nextLevel]
    exact le_max_left 0 _

theorem blockAdvance_level (israw : Bool) (v : BlockLineView) (g : Option Int)
    (st : BlockState) : (blockAdvance israw v g st).level = v.nextLevel := rfl

theorem blockLineView_nextLevel (israw : Bool) (info : LineInfo) (st : BlockState) :
    (blockLineView israw info st).nextLevel =
      max 0 (st.level + ((blockLineView israw info st).braceResult.opens : Int) -
        ((blockLineView israw info st).braceResult.closes : Int)) := rfl

theorem blockStep_level_nonneg (u : Int) (israw : Bool) (base : Int) (info : LineInfo)
    (st : BlockState) (h : 0 ≤ st.level) : 0 ≤ (blockStep u israw base info st).1.level := by
  unfold blockStep; dsimp only
  split
  · exact h
  · rw [blockAdvance_level, blockLineView_nextLevel]
    exact le_max_left 0 _

theorem docStates_inv {P : DocState → Prop} (u : Int)
    (hstep : ∀ i line info st, P st → P (docStep u i line info st).1) :
    ∀ (lines : List Str) (i : Nat) (infos : List LineInfo) (st : DocState),
      P st → ∀ s ∈ docStates u i lines infos st, P s := by
  intro lines
  induction lines with
  | nil =>
    intro i infos st h s hs
    simp only [docStates, List.mem_singleton] at hs
    rwa [hs]
  | cons line rest ih =>
    intro i infos st h s hs
    cases infos with
    | nil =>
      simp only [docStates, List.mem_singleton] at hs
      rwa [hs]
    | cons info irest =>
      rw [docStates] at hs
      rcases List.mem_cons.mp hs with rfl | hs'
      · exact h
      · exact ih _ _ _ (hstep i line info st h) s hs'

theorem blockStates_inv {P : BlockState → Prop} (u : Int) (israw : Bool) (base : Int)
    (lineInfos : List LineInfo)
    (hstep : ∀ info st, P st → P (blockStep u israw base info st).1) :
    ∀ (idxs : List Nat) (st : BlockState),
      P st → ∀ s ∈ blockStates u israw base lineInfos idxs st, P s := by
  intro idxs
  induction idxs with
  | nil =>
    intro st h s hs
    simp only [blockStates, List.mem_singleton] at hs
    rwa [hs]
  | cons idx rest ih =>
    intro st h s hs
    rw [blockStates] at hs
    rcases List.mem_cons.mp hs with rfl | hs'
    · exact h
    · exact ih _ (hstep _ st h) s hs'

/-- C8: at every step of every scanning pass — the document-level pass and
each per-block nested pass — the running nesting level is a non-negative
integer, whatever the input: the level never drops below 0 even when the
input closes more tags or braces than it opened. -/
theorem nesting_level_nonneg (input : Str) (options : FormatOptions) :
    (∀ s ∈ pipelineDocStates input options, 0 ≤ s.level) ∧
    (∀ b ∈ (makePipeline input options).blocks,
      ∀ s ∈ pipelineBlockStates input options b, 0 ≤ s.level) := by
  constructor
  · exact docStates_inv _ (fun i line info st h => docStep_level_nonneg _ i line info st h)
      _ 0 _ initDocState (by decide)
  · intro b _
    exact blockStates_inv _ _ _ _
      (fun info st h => blockStep_level_nonneg _ _ _ info st h) _ initBlockState (by decide)

/-- C5: for a line processed by the document-level forward pass (one not
captured inside a raw/text block), the desired indentation the step assigns
equals the spec's formula: `max(0, currentLevel − leadingClosingCount) ×
indentUnit` plus one extra unit exactly under the switch-body condition.
`currentLevel` and the case-seen marker are read from the state after the
step's block-closing phase; the leading-closing count is the scan's
(including the raw-close adjustment of source lines 125–131). -/
theorem docStep_desired_formula (u : Int) (i : Nat) (line : Str) (info : LineInfo)
    (st : DocState)
    (h : ((docAfterClose i line info st).inTextBlock ||
          (docAfterClose i line info st).inRawBlock) = false) :
    (docStep u i line info st).2 =
      some (specDesiredWidth u (docAfterClose i line info st).level
        (docLineView line info (docAfterClose i line info st)).scan.lcc
        (docLineView line info (docAfterClose i line info st)).inSwitch
        (docAfterClose i line info st).caseIndentDepth.isSome
        (docLineView line info (docAfterClose i line info st)).isCaseOrDefault
        (docLineView line info (docAfterClose i line info st)).closesSwitch) := by
  unfold docStep
  dsimp only
  rw [h]
  simp only [Bool.false_eq_true, if_false]
  rw [specDesiredWidth, docSwitchExtra, docLineView_effectiveLevel]

/-- Witness for C5 at a concrete line and state. -/
theorem docStep_desired_formula_witness :
    (docStep 2 0 ("x".data) (analyzeLine ("x".data) 2) initDocState).2 =
      some (specDesiredWidth 2
        (docAfterClose 0 ("x".data) (analyzeLine ("x".data) 2) initDocState).level
        (docLineView ("x".data) (analyzeLine ("x".data) 2)
          (docAfterClose 0 ("x".data) (analyzeLine ("x".data) 2) initDocState)).scan.lcc
        (docLineView ("x".data) (analyzeLine ("x".data) 2)
          (docAfterClose 0 ("x".data) (analyzeLine ("x".data) 2) initDocState)).inSwitch
        (docAfterClose 0 ("x".data) (analyzeLine ("x".data) 2)
          initDocState).caseIndentDepth.isSome
        (docLineView ("x".data) (analyzeLine ("x".data) 2)
          (docAfterClose 0 ("x".data) (analyzeLine ("x".data) 2)
            initDocState)).isCaseOrDefault
        (docLineView ("x".data) (analyzeLine ("x".data) 2)
          (docAfterClose 0 ("x".data) (analyzeLine ("x".data) 2)
            initDocState)).closesSwitch) :=
  docStep_desired_formula 2 0 ("x".data) (analyzeLine ("x".data) 2) initDocState (by decide)

/-- C9 (code bug): on an input whose indentation needs no change, the log
carries only the validation-ok record — the source pushes that record before
testing `logs.length === 0`, so the intended `No indentation changes
detected.` record is unreachable. -/
theorem formatText_noChanges_record_dead :
    formatText ("a") ⟨4, true⟩ = ⟨"a", [okFirstLog], none⟩ ∧
    noChangesLog ∉ (formatText ("a") ⟨4, true⟩).logs := by decide

/-- C4 (code bug): `idemInput` has no raw/text block at all (so none is
unterminated), both passes validate, and still the second pass produces a
different byte string — the `\r` inside the middle line defeats the
`^(\s*)(.*)$` split, so every pass prepends a fresh indentation run to the
line's preserved old one. -/
theorem formatText_second_pass_differs :
    (formatText idemInput ⟨4, true⟩).error = none ∧
    (makePipeline idemInput.data ⟨4, true⟩).blocks = [] ∧
    (makePipeline idemInput.data ⟨4, true⟩).scanEnd.inTextBlock = false ∧
    (makePipeline idemInput.data ⟨4, true⟩).scanEnd.inRawBlock = false ∧
    (formatText (formatText idemInput ⟨4, true⟩).output ⟨4, true⟩).error = none ∧
    (formatText (formatText idemInput ⟨4, true⟩).output ⟨4, true⟩).output ≠
      (formatText idemInput ⟨4, true⟩).output := by decide

/-- C10 (counterexample): on `"\ta\rb"` formatting succeeds and returns the
input unchanged — the tab survives as leading whitespace of the output line
although the computed indentation width is 0. -/
theorem output_leading_tab_survives :
    (formatText tabCrInput ⟨4, true⟩).error = none ∧
    (formatText tabCrInput ⟨4, true⟩).output = tabCrInput ∧
    (formatText tabCrInput ⟨4, true⟩).output.data.takeWhile jsIsSpace = ['\t'] ∧
    (makePipeline tabCrInput.data ⟨4, true⟩).desiredsFilled = [0] := by decide

/-- C6 (counterexample): in `switchBlockInput`'s script block (`parentLevel
= 0`, so base offset 0), the line `foo();` sits at block-local brace level 1
yet is printed at width 8 = base + level·4 + the switch-body extra unit —
not at base + level·4 = 4 as the claim words it. -/
theorem blockIndent_base_plus_level_refuted :
    (makePipeline switchBlockInput.data ⟨4, true⟩).blocks =
      [⟨1, 4, 0, "script".data, false⟩] ∧
    blockBaseIndent 4 ⟨1, 4, 0, "script".data, false⟩ = 0 ∧
    ((pipelineBlockStates switchBlockInput.data ⟨4, true⟩
        ⟨1, 4, 0, "script".data, false⟩).map BlockState.level) = [0, 1, 1, 1, 0] ∧
    (blockLineView true (analyzeLine ("foo();".data) 4)
        ((pipelineBlockStates switchBlockInput.data ⟨4, true⟩
          ⟨1, 4, 0, "script".data, false⟩).getD 2 initBlockState)).effectiveLevel = 1 ∧
    (makePipeline switchBlockInput.data ⟨4, true⟩).desiredsFilled.get? 3 = some 8 ∧
    ¬ ((8 : Int) = 0 + 1 * 4) := by decide

/-- C6 (amended): a re-indented block's base offset is `parentLevel ×
indentUnit + indentUnit`, except that a raw block at parent level 0 uses 0;
a non-blank line is printed at this base plus its block-local effective
brace level times the unit, plus one extra unit when the switch-body
condition holds — except that a text-output (`@:`) line of a raw block is
anchored at the base plus its run's base level times the unit. -/
theorem blockStep_desired_width (u : Int) (block : TextBlock) (info : LineInfo)
    (st : BlockState) (h : info.rest.isEmpty = false) :
    (blockStep u (RAW_TAGS.contains block.tagName) (blockBaseIndent u block)
        info st).2.desired =
      (if RAW_TAGS.contains block.tagName &&
          (blockLineView (RAW_TAGS.contains block.tagName) info st).isRazorTextLine then
        blockBaseIndent u block +
          (st.razorTextGroupBaseLevel.getD
            (blockLineView (RAW_TAGS.contains block.tagName) info st).effectiveLevel) * u
      else
        blockBaseIndent u block +
          (blockLineView (RAW_TAGS.contains block.tagName) info st).effectiveLevel * u +
          (if blockSwitchExtra (blockLineView (RAW_TAGS.contains block.tagName) info st) st
           then u else 0)) ∧
    blockBaseIndent u block = block.parentLevel * u +
      (if RAW_TAGS.contains block.tagName && block.parentLevel == 0 then 0 else u) := by
  constructor
  · unfold blockStep
    dsimp only
    rw [h]
    simp only [Bool.false_eq_true, if_false]
    split
    · rfl
    · split <;> rfl
  · rfl

/-- Witness for the amended C6 at a concrete block line. -/
theorem blockStep_desired_width_witness :
    (blockStep 4 (RAW_TAGS.contains (TextBlock.tagName ⟨1, 4, 0, "script".data, false⟩))
        (blockBaseIndent 4 ⟨1, 4, 0, "script".data, false⟩)
        (analyzeLine ("foo();".data) 4) initBlockState).2.desired =
      (if RAW_TAGS.contains (TextBlock.tagName ⟨1, 4, 0, "script".data, false⟩) &&
          (blockLineView
            (RAW_TAGS.contains (TextBlock.tagName ⟨1, 4, 0, "script".data, false⟩))
            (analyzeLine ("foo();".data) 4) initBlockState).isRazorTextLine then
        blockBaseIndent 4 ⟨1, 4, 0, "script".data, false⟩ +
          (initBlockState.razorTextGroupBaseLevel.getD
            (blockLineView
              (RAW_TAGS.contains (TextBlock.tagName ⟨1, 4, 0, "script".data, false⟩))
              (analyzeLine ("foo();".data) 4) initBlockState).effectiveLevel) * 4
      else
        blockBaseIndent 4 ⟨1, 4, 0, "script".data, false⟩ +
          (blockLineView
            (RAW_TAGS.contains (TextBlock.tagName ⟨1, 4, 0, "script".data, false⟩))
            (analyzeLine ("foo();".data) 4) initBlockState).effectiveLevel * 4 +
          (if blockSwitchExtra
              (blockLineView
                (RAW_TAGS.contains (TextBlock.tagName ⟨1, 4, 0, "script".data, false⟩))
                (analyzeLine ("foo();".data) 4) initBlockState) initBlockState
           then 4 else 0)) ∧
    blockBaseIndent 4 ⟨1, 4, 0, "script".data, false⟩ =
      (TextBlock.parentLevel ⟨1, 4, 0, "script".data, false⟩) * 4 +
        (if RAW_TAGS.contains (TextBlock.tagName ⟨1, 4, 0, "script".data, false⟩) &&
            (TextBlock.parentLevel ⟨1, 4, 0, "script".data, false⟩) == 0 then 0 else 4) :=
  blockStep_desired_width 4 ⟨1, 4, 0, "script".data, false⟩
    (analyzeLine ("foo();".data) 4) initBlockState (by decide)

theorem insertWalk_length (a b c : Bool) (lm : List (Str × Option RawLineMeta)) :
    (insertWalk a b c lm).1.length = lm.length + (insertWalk a b c lm).2 := by
  induction lm generalizing a b c with
  | nil => simp [insertWalk]
  | cons hd tl ih =>
    obtain ⟨ln, m⟩ := hd
    cases m with
    | none =>
      simp only [insertWalk, List.length_cons]
      rw [ih]
      omega
    | some meta =>
      simp only [insertWalk]
      split
      · simp only [List.length_cons]
        rw [ih]
        omega
      · simp only [List.length_append, List.length_cons]
        rw [ih]
        omega

theorem insertWalk_count_zero (a b c : Bool) (lm : List (Str × Option RawLineMeta))
    (h : (insertWalk a b c lm).2 = 0) : (insertWalk a b c lm).1 = lm.map Prod.fst := by
  induction lm generalizing a b c with
  | nil => simp [insertWalk]
  | cons hd tl ih =>
    obtain ⟨ln, m⟩ := hd
    cases m with
    | none =>
      simp only [insertWalk] at h ⊢
      rw [List.map_cons, ih _ _ _ h]
    | some meta =>
      by_cases hb : meta.isRawBlock
      · simp only [insertWalk, hb, Bool.not_true, Bool.false_eq_true, if_false] at h ⊢
        by_cases hc : (meta.isCaseOrDefault && (if a = true then b else false) &&
            !(if a = true then c else false)) = true
        · rw [if_pos hc] at h
          cases hr : razorLineLead ln <;> simp [hr] at h
        · rw [if_neg hc] at h ⊢
          simp only [List.length_nil, Nat.add_zero] at h
          rw [List.nil_append, List.map_cons, ih _ _ _ h]
      · simp only [insertWalk, hb, Bool.not_false, if_true] at h ⊢
        rw [List.map_cons, ih _ _ _ h]

theorem docScanFrom_length (u : Int) :
    ∀ (lines : List Str) (i : Nat) (infos : List LineInfo) (st : DocState),
      infos.length = lines.length →
      (docScanFrom u i lines infos st).2.length = lines.length := by
  intro lines
  induction lines with
  | nil => intro i infos st _; simp [docScanFrom]
  | cons line rest ih =>
    intro i infos st h
    cases infos with
    | nil => simp at h
    | cons info irest =>
      simp only [docScanFrom, List.length_cons]
      rw [ih _ _ _ (by simpa using h)]

theorem foldl_set_length {α : Type} (f : Nat → α) :
    ∀ (idxs : List Nat) (ds : List α),
      (idxs.foldl (fun ds idx => ds.set idx (f idx)) ds).length = ds.length := by
  intro idxs
  induction idxs with
  | nil => intro ds; rfl
  | cons idx rest ih => intro ds; rw [List.foldl_cons, ih, List.length_set]

theorem applySingleTextBlockOriginalIndent_length (block : TextBlock)
    (lineInfos : List LineInfo) (ds : List (Option Int)) :
    (applySingleTextBlockOriginalIndent block lineInfos ds).length = ds.length := by
  unfold applySingleTextBlockOriginalIndent
  exact foldl_set_length _ _ _

theorem runBlockLines_length (u : Int) (israw : Bool) (base : Int)
    (lineInfos : List LineInfo) :
    ∀ (idxs : List Nat) (st : BlockState) (tbl : Tables),
      (runBlockLines u israw base lineInfos idxs st tbl).desireds.length =
        tbl.desireds.length ∧
      (runBlockLines u israw base lineInfos idxs st tbl).razorFlags.length =
        tbl.razorFlags.length ∧
      (runBlockLines u israw base lineInfos idxs st tbl).contentIndents.length =
        tbl.contentIndents.length ∧
      (runBlockLines u israw base lineInfos idxs st tbl).metas.length =
        tbl.metas.length := by
  intro idxs
  induction idxs with
  | nil => intro st tbl; exact ⟨rfl, rfl, rfl, rfl⟩
  | cons idx rest ih =>
    intro st tbl
    simp only [runBlockLines]
    obtain ⟨h1, h2, h3, h4⟩ := ih _ _
    refine ⟨?_, ?_, ?_, ?_⟩
    · rw [h1]; exact List.length_set ..
    · rw [h2]; split <;> simp [List.length_set]
    · rw [h3]; split <;> simp [List.length_set]
    · rw [h4]
      cases hm : (blockStep u israw base ((lineInfos.get? idx).getD emptyLineInfo) st).2.meta <;>
        simp [hm, List.length_set]

theorem applyOneBlock_length (u : Int) (lineInfos : List LineInfo) (tbl : Tables)
    (block : TextBlock) :
    (applyOneBlock u lineInfos tbl block).desireds.length = tbl.desireds.length ∧
    (applyOneBlock u lineInfos tbl block).razorFlags.length = tbl.razorFlags.length ∧
    (applyOneBlock u lineInfos tbl block).contentIndents.length =
      tbl.contentIndents.length ∧
    (applyOneBlock u lineInfos tbl block).metas.length = tbl.metas.length := by
  unfold applyOneBlock
  split
  · exact ⟨applySingleTextBlockOriginalIndent_length .., rfl, rfl, rfl⟩
  · dsimp only
    split
    · exact ⟨applySingleTextBlockOriginalIndent_length .., rfl, rfl, rfl⟩
    · exact runBlockLines_length ..

theorem applyTextBlockIndentation_length (u : Int) (lineInfos : List LineInfo) :
    ∀ (blocks : List TextBlock) (tbl : Tables),
      (applyTextBlockIndentation u blocks lineInfos tbl).desireds.length =
        tbl.desireds.length ∧
      (applyTextBlockIndentation u blocks lineInfos tbl).razorFlags.length =
        tbl.razorFlags.length ∧
      (applyTextBlockIndentation u blocks lineInfos tbl).contentIndents.length =
        tbl.contentIndents.length ∧
      (applyTextBlockIndentation u blocks lineInfos tbl).metas.length =
        tbl.metas.length := by
  intro blocks
  induction blocks with
  | nil => intro tbl; exact ⟨rfl, rfl, rfl, rfl⟩
  | cons block rest ih =>
    intro tbl
    have hstep := applyOneBlock_length u lineInfos tbl block
    have hrest := ih (applyOneBlock u lineInfos tbl block)
    simp only [applyTextBlockIndentation, List.foldl_cons] at *
    exact ⟨hrest.1.trans hstep.1, hrest.2.1.trans hstep.2.1,
      hrest.2.2.1.trans hstep.2.2.1, hrest.2.2.2.trans hstep.2.2.2⟩

theorem applyTextBlockOriginalIndent_length (lineInfos : List LineInfo) :
    ∀ (blocks : List TextBlock) (ds : List (Option Int)),
      (applyTextBlockOriginalIndent blocks lineInfos ds).length = ds.length := by
  intro blocks
  induction blocks with
  | nil => intro ds; rfl
  | cons block rest ih =>
    intro ds
    simp only [applyTextBlockOriginalIndent, List.foldl_cons] at *
    rw [ih, applySingleTextBlockOriginalIndent_length]

theorem renderAll_length :
    ∀ (li : List LineInfo) (ds : List Int) (fs : List Bool) (cs : List Int)
      (ms : List (Option RawLineMeta)),
      ds.length = li.length → fs.length = li.length → cs.length = li.length →
      ms.length = li.length → (renderAll li ds fs cs ms).length = li.length := by
  intro li
  induction li with
  | nil =>
    intro ds fs cs ms h1 h2 h3 h4
    rw [List.length_nil] at h1 h2 h3 h4
    rw [List.length_eq_zero] at h1 h2 h3 h4
    subst h1; subst h2; subst h3; subst h4
    rfl
  | cons info irest ih =>
    intro ds fs cs ms h1 h2 h3 h4
    cases ds with
    | nil => simp at h1
    | cons d dt =>
      cases fs with
      | nil => simp at h2
      | cons f ft =>
        cases cs with
        | nil => simp at h3
        | cons c ct =>
          cases ms with
          | nil => simp at h4
          | cons m mt =>
            simp only [renderAll, List.length_cons]
            rw [ih dt ft ct mt (by simpa using h1) (by simpa using h2)
              (by simpa using h3) (by simpa using h4)]

theorem makePipeline_lines (input : Str) (options : FormatOptions) :
    (makePipeline input options).lines = (splitLines input).1 := rfl

theorem makePipeline_lineInfos (input : Str) (options : FormatOptions) :
    (makePipeline input options).lineInfos =
      (splitLines input).1.map
        (fun l => analyzeLine l (sanitizeIndentSize options.indentSize)) := rfl

theorem makePipeline_finalLines (input : Str) (options : FormatOptions) :
    (makePipeline input options).finalLines =
      (insertSwitchBlankLines (makePipeline input options).outputLines
        (makePipeline input options).tables.metas).1 := rfl

theorem makePipeline_insertCount (input : Str) (options : FormatOptions) :
    (makePipeline input options).insertCount =
      (insertSwitchBlankLines (makePipeline input options).outputLines
        (makePipeline input options).tables.metas).2 := rfl

theorem makePipeline_outputLines (input : Str) (options : FormatOptions) :
    (makePipeline input options).outputLines =
      renderAll (makePipeline input options).lineInfos
        (makePipeline input options).desiredsFilled
        (makePipeline input options).tables.razorFlags
        (makePipeline input options).tables.contentIndents
        (makePipeline input options).tables.metas := rfl

theorem makePipeline_desiredsFilled (input : Str) (options : FormatOptions) :
    (makePipeline input options).desiredsFilled =
      ((makePipeline input options).tables.desireds.zip
        (makePipeline input options).lineInfos).map
        (fun p => p.1.getD p.2.leadingWidth) := rfl

theorem makePipeline_validation (input : Str) (options : FormatOptions) :
    (makePipeline input options).validation =
      validateOutput (makePipeline input options).lineInfos
        (makePipeline input options).finalLines
        ((makePipeline input options).insertCount != 0) := rfl

theorem makePipeline_blocks (input : Str) (options : FormatOptions) :
    (makePipeline input options).blocks =
      finishDocBlocks (splitLines input).1.length
        (docScanFrom (sanitizeIndentSize options.indentSize) 0 (splitLines input).1
          (makePipeline input options).lineInfos initDocState).1 := rfl

theorem makePipeline_tables (input : Str) (options : FormatOptions) :
    (makePipeline input options).tables =
      (if options.adjustTextBlocks then
        applyTextBlockIndentation (sanitizeIndentSize options.indentSize)
          (makePipeline input options).blocks (makePipeline input options).lineInfos
          ⟨(makePipeline input options).docDesireds,
           List.replicate (splitLines input).1.length false,
           List.replicate (splitLines input).1.length 0,
           List.replicate (splitLines input).1.length none⟩
      else
        ⟨applyTextBlockOriginalIndent (makePipeline input options).blocks
           (makePipeline input options).lineInfos (makePipeline input options).docDesireds,
         List.replicate (splitLines input).1.length false,
         List.replicate (splitLines input).1.length 0,
         List.replicate (splitLines input).1.length none⟩) := rfl

theorem makePipeline_docDesireds (input : Str) (options : FormatOptions) :
    (makePipeline input options).docDesireds =
      (docScanFrom (sanitizeIndentSize options.indentSize) 0 (splitLines input).1
        (makePipeline input options).lineInfos initDocState).2 := rfl

theorem pipeline_lengths (input : Str) (options : FormatOptions) :
    (makePipeline input options).lineInfos.length =
      (makePipeline input options).lines.length ∧
    (makePipeline input options).tables.desireds.length =
      (makePipeline input options).lines.length ∧
    (makePipeline input options).tables.razorFlags.length =
      (makePipeline input options).lines.length ∧
    (makePipeline input options).tables.contentIndents.length =
      (makePipeline input options).lines.length ∧
    (makePipeline input options).tables.metas.length =
      (makePipeline input options).lines.length ∧
    (makePipeline input options).desiredsFilled.length =
      (makePipeline input options).lines.length ∧
    (makePipeline input options).outputLines.length =
      (makePipeline input options).lines.length := by
  have hinfos : (makePipeline input options).lineInfos.length =
      (makePipeline input options).lines.length := by
    rw [makePipeline_lineInfos, makePipeline_lines, List.length_map]
  have hdoc : (makePipeline input options).docDesireds.length =
      (makePipeline input options).lines.length := by
    rw [makePipeline_docDesireds, makePipeline_lines]
    exact docScanFrom_length _ _ _ _ _ (by rw [← makePipeline_lines input options]; exact hinfos)
  have htbl : (makePipeline input options).tables.desireds.length =
        (makePipeline input options).lines.length ∧
      (makePipeline input options).tables.razorFlags.length =
        (makePipeline input options).lines.length ∧
      (makePipeline input options).tables.contentIndents.length =
        (makePipeline input options).lines.length ∧
      (makePipeline input options).tables.metas.length =
        (makePipeline input options).lines.length := by
    rw [makePipeline_tables]
    split
    · have h := applyTextBlockIndentation_length (sanitizeIndentSize options.indentSize)
        (makePipeline input options).lineInfos (makePipeline input options).blocks
        ⟨(makePipeline input options).docDesireds,
         List.replicate (splitLines input).1.length false,
         List.replicate (splitLines input).1.length 0,
         List.replicate (splitLines input).1.length none⟩
      refine ⟨h.1.trans ?_, h.2.1.trans ?_, h.2.2.1.trans ?_, h.2.2.2.trans ?_⟩
      · exact hdoc
      · rw [List.length_replicate, makePipeline_lines]
      · rw [List.length_replicate, makePipeline_lines]
      · rw [List.length_replicate, makePipeline_lines]
    · refine ⟨?_, ?_, ?_, ?_⟩
      · exact (applyTextBlockOriginalIndent_length _ _ _).trans hdoc
      · rw [List.length_replicate, makePipeline_lines]
      · rw [List.length_replicate, makePipeline_lines]
      · rw [List.length_replicate, makePipeline_lines]
  have hfill : (makePipeline input options).desiredsFilled.length =
      (makePipeline input options).lines.length := by
    rw [makePipeline_desiredsFilled, List.length_map, List.length_zip, htbl.1, hinfos,
      min_self]
  have hout : (makePipeline input options).outputLines.length =
      (makePipeline input options).lines.length := by
    rw [makePipeline_outputLines,
      renderAll_length _ _ _ _ _ (hfill.trans hinfos.symm) (htbl.2.1.trans hinfos.symm)
        (htbl.2.2.1.trans hinfos.symm) (htbl.2.2.2.trans hinfos.symm)]
    exact hinfos
  exact ⟨hinfos, htbl.1, htbl.2.1, htbl.2.2.1, htbl.2.2.2, hfill, hout⟩

/-- C3: when `formatText` succeeds, the number of final output lines equals
the number of input lines plus exactly the number of separator lines the
switch/case spacing pass inserted; when that pass inserted nothing, the
final lines are exactly the rendered lines, one per input line. -/
theorem formatText_line_count (input : String) (options : FormatOptions)
    (h : (formatText input options).error = none) :
    (makePipeline input.data options).finalLines.length =
      (makePipeline input.data options).lines.length +
        (makePipeline input.data options).insertCount ∧
    ((makePipeline input.data options).insertCount = 0 →
      (makePipeline input.data options).finalLines =
        (makePipeline input.data options).outputLines ∧
      (makePipeline input.data options).finalLines.length =
        (makePipeline input.data options).lines.length) := by
  have hl := pipeline_lengths input.data options
  have hzip : ((makePipeline input.data options).outputLines.zip
      (makePipeline input.data options).tables.metas).length =
      (makePipeline input.data options).lines.length := by
    rw [List.length_zip, hl.2.2.2.2.2.2, hl.2.2.2.2.1, min_self]
  refine ⟨?_, ?_⟩
  · rw [makePipeline_finalLines, makePipeline_insertCount]
    unfold insertSwitchBlankLines
    rw [insertWalk_length, hzip]
  · intro h0
    rw [makePipeline_insertCount] at h0
    unfold insertSwitchBlankLines at h0
    have hfin : (makePipeline input.data options).finalLines =
        (makePipeline input.data options).outputLines := by
      rw [makePipeline_finalLines]
      unfold insertSwitchBlankLines
      rw [insertWalk_count_zero _ _ _ _ h0]
      exact List.map_fst_zip _ _ (by rw [hl.2.2.2.2.2.2, hl.2.2.2.2.1])
    exact ⟨hfin, by rw [hfin, hl.2.2.2.2.2.2]⟩

/-- Witness for C3 at a concrete successful run. -/
theorem formatText_line_count_witness :
    (makePipeline ("a").data ⟨2, true⟩).finalLines.length =
      (makePipeline ("a").data ⟨2, true⟩).lines.length +
        (makePipeline ("a").data ⟨2, true⟩).insertCount ∧
    ((makePipeline ("a").data ⟨2, true⟩).insertCount = 0 →
      (makePipeline ("a").data ⟨2, true⟩).finalLines =
        (makePipeline ("a").data ⟨2, true⟩).outputLines ∧
      (makePipeline ("a").data ⟨2, true⟩).finalLines.length =
        (makePipeline ("a").data ⟨2, true⟩).lines.length) :=
  formatText_line_count ("a") ⟨2, true⟩ (by decide)

theorem validateWalk_notallow_leftover :
    ∀ (outs origs : List Str) (i : Nat), origs.length = outs.length →
      (validateWalk false i origs outs).2 = [] := by
  intro outs
  induction outs with
  | nil =>
    intro origs i h
    rw [List.length_nil, List.length_eq_zero] at h
    subst h
    rfl
  | cons out outs ih =>
    intro origs i h
    cases origs with
    | nil => simp at h
    | cons o os =>
      simp only [validateWalk, Bool.false_and, Bool.false_eq_true, if_false]
      exact ih os (i + 1) (by simpa using h)

theorem validationOutcome_ite_flip (c : List String) :
    (if !c.isEmpty then (⟨false, failMsg c⟩ : ValidationOutcome) else ⟨true, ""⟩) =
      if c = [] then ⟨true, ""⟩ else ⟨false, failMsg c⟩ := by
  cases c <;> simp

/-- `validateOutput` in `formatText`'s calling context: when insertion was
off the line counts agree, so the two line-count branches never fire, and
the outcome is decided by the offending-line list alone. -/
theorem validateOutput_characterize (lineInfos : List LineInfo) (outs : List Str)
    (allow : Bool) (hlen : allow = false → lineInfos.length = outs.length) :
    validateOutput lineInfos outs allow =
      if valChanged lineInfos outs allow = [] then ⟨true, ""⟩
      else ⟨false, failMsg (valChanged lineInfos outs allow)⟩ := by
  unfold validateOutput valChanged
  cases allow with
  | false =>
    have h := hlen rfl
    have hlen2 : ((lineInfos.map LineInfo.original).length != outs.length) = false := by
      simp [List.length_map, h]
    have hleft := validateWalk_notallow_leftover outs (lineInfos.map LineInfo.original) 0
      (by simp [List.length_map, h])
    simp only [Bool.not_false, Bool.true_and, hlen2, Bool.false_eq_true, if_false, hleft,
      List.isEmpty_nil, Bool.not_true, Bool.false_and, List.append_nil]
    exact validationOutcome_ite_flip _
  | true =>
    simp only [Bool.not_true, Bool.false_and, Bool.false_eq_true, if_false]
    exact validationOutcome_ite_flip _

/-- The validator of a `formatText` run, characterized by its offending-line
list: the line-count branches never fire there. -/
theorem pipeline_validation_eq (input : String) (options : FormatOptions) :
    (makePipeline input.data options).validation =
      if pipeChanged input options = [] then ⟨true, ""⟩
      else ⟨false, failMsg (pipeChanged input options)⟩ := by
  rw [makePipeline_validation]
  refine validateOutput_characterize _ _ _ (fun hf => ?_)
  have h0 : (makePipeline input.data options).insertCount = 0 := by
    by_contra hne
    rw [bne_eq_false_iff_eq] at hf
    exact hne (by exact_mod_cast hf)
  have hl := pipeline_lengths input.data options
  have hfin : (makePipeline input.data options).finalLines.length =
      (makePipeline input.data options).lines.length := by
    rw [makePipeline_finalLines]
    unfold insertSwitchBlankLines
    rw [insertWalk_count_zero _ _ _ _ (by
      rw [makePipeline_insertCount] at h0
      exact h0), List.length_map, List.length_zip, hl.2.2.2.2.2.2, hl.2.2.2.2.1,
      min_self]
  rw [hl.1, ← hfin]

/-- C2: the whole operation is atomic and fail-closed.  The validator's
outcome is `ok` exactly when the offending-line list is empty, and otherwise
its message is the failure message built from that non-empty list (so it
names the first offending line); on a failing validation `formatText`
returns the pristine input, an empty log and that message, and on success it
returns the rendered document with the success log and no error. -/
theorem formatText_fail_atomic (input : String) (options : FormatOptions) :
    ((makePipeline input.data options).validation =
      if pipeChanged input options = [] then ⟨true, ""⟩
      else ⟨false, failMsg (pipeChanged input options)⟩) ∧
    (formatText input options =
      if (makePipeline input.data options).validation.ok then
        ⟨String.mk (joinLines (makePipeline input.data options).lineEnding
           (makePipeline input.data options).finalLines),
         okFirstLog :: changeRecords (makePipeline input.data options).lineInfos
           (makePipeline input.data options).desiredsFilled, none⟩
      else ⟨input, [], some (failMsg (pipeChanged input options))⟩) := by
  have hchar := pipeline_validation_eq input options
  refine ⟨hchar, ?_⟩
  unfold formatText
  dsimp only
  split
  · rfl
  · rename_i hok
    have hmsg : (makePipeline input.data options).validation.message =
        failMsg (pipeChanged input options) := by
      by_cases hc : pipeChanged input options = []
      · rw [hchar, if_pos hc] at hok
        simp at hok
      · rw [hchar, if_neg hc]
    rw [hmsg]

/-- A successful validator walk yields the alignment of claim C1. -/
theorem validateWalk_aligned (allow : Bool) :
    ∀ (outs origs : List Str) (i : Nat),
      (validateWalk allow i origs outs).1 = [] →
      (∀ l ∈ (validateWalk allow i origs outs).2, isSepLine l = true) →
      ValidAligned origs outs := by
  intro outs
  induction outs with
  | nil =>
    intro origs i h1 _
    cases origs with
    | nil => exact ValidAligned.nil
    | cons o os => simp [validateWalk] at h1
  | cons out outs ih =>
    intro origs i h1 h2
    cases origs with
    | nil =>
      have h2' : ∀ l ∈ out :: outs, isSepLine l = true := by
        intro l hl
        apply h2
        simpa [validateWalk] using hl
      refine ValidAligned.trail out outs (h2' out (by simp)) ?_
      refine ih [] i (by simp [validateWalk]) ?_
      intro l hl
      refine h2' l ?_
      simp only [validateWalk] at hl
      exact List.mem_cons_of_mem _ hl
    | cons o os =>
      by_cases hskip : (allow && isSepLine out) = true
      · have hout : isSepLine out = true :=
          ((by simpa using hskip : allow = true ∧ isSepLine out = true)).2
        by_cases hsep : isSepLine o = true
        · simp only [validateWalk, hskip, if_true, hsep] at h1 h2
          exact ValidAligned.bothSep o os out outs hout hsep (ih os (i + 1) h1 h2)
        · simp only [validateWalk, hskip, if_true, hsep, Bool.false_eq_true, if_false]
            at h1 h2
          exact ValidAligned.inserted o os out outs hout (ih (o :: os) i h1 h2)
      · simp only [validateWalk, hskip, Bool.false_eq_true, if_false] at h1 h2
        rw [List.append_eq_nil] at h1
        have heq : normalizeForValidation o = normalizeForValidation out := by
          by_cases hne : (normalizeForValidation o != normalizeForValidation out) = true
          · rw [if_pos hne] at h1
            exact absurd h1.1 (by simp)
          · have hf : (normalizeForValidation o != normalizeForValidation out) = false := by
              simpa using hne
            exact bne_eq_false_iff_eq.mp hf
        refine ValidAligned.matched o os out outs heq (ih os (i + 1) h1.2 ?_)
        intro l hl
        exact h2 l hl

theorem analyzeLine_original (l : Str) (u : Int) : (analyzeLine l u).original = l := by
  unfold analyzeLine
  dsimp only
  split <;> rfl

theorem pipeline_originals (input : Str) (options : FormatOptions) :
    (makePipeline input options).lineInfos.map LineInfo.original =
      (makePipeline input options).lines := by
  rw [makePipeline_lineInfos, makePipeline_lines]
  induction (splitLines input).1 with
  | nil => rfl
  | cons l rest ih => simp only [List.map_cons, analyzeLine_original, ih]

/-- C1: whenever `formatText` returns without an error, the final output
lines align with the input lines — every matched pair is equal once leading
whitespace is stripped and the permitted `@:`-marker and `switch (...)`
header spacing normalizations are applied, up to inserted blank / bare-`@:`
separator lines; and whenever it returns an error the output is the
untouched input, never an altered document. -/
theorem formatText_content_preserved (input : String) (options : FormatOptions) :
    ((formatText input options).error = none →
      ValidAligned (makePipeline input.data options).lines
        (makePipeline input.data options).finalLines) ∧
    ((formatText input options).error ≠ none →
      (formatText input options).output = input) := by
  constructor
  · intro herr
    have hok : (makePipeline input.data options).validation.ok = true := by
      by_contra hok
      unfold formatText at herr
      dsimp only at herr
      rw [if_neg hok] at herr
      simp at herr
    have hch : pipeChanged input options = [] := by
      by_contra hc
      rw [pipeline_validation_eq input options, if_neg hc] at hok
      simp at hok
    unfold pipeChanged valChanged at hch
    rw [List.append_eq_nil] at hch
    have hwalk1 := hch.1
    have htrail := hch.2
    have hsepAll : ∀ l ∈ (validateWalk ((makePipeline input.data options).insertCount != 0) 0
        ((makePipeline input.data options).lineInfos.map LineInfo.original)
        (makePipeline input.data options).finalLines).2, isSepLine l = true := by
      by_cases hallow : ((makePipeline input.data options).insertCount != 0) = true
      · intro l hl
        by_contra hns
        have hany : (validateWalk ((makePipeline input.data options).insertCount != 0) 0
            ((makePipeline input.data options).lineInfos.map LineInfo.original)
            (makePipeline input.data options).finalLines).2.any
            (fun l => !isSepLine l) = true := by
          rw [List.any_eq_true]
          exact ⟨l, hl, by simp [hns]⟩
        simp only [hany, hallow, Bool.and_true, if_true] at htrail
        simp at htrail
        rw [hallow] at hl
        exact hns (htrail l hl)
      · have hallowf : ((makePipeline input.data options).insertCount != 0) = false := by
          simpa using hallow
        have h0 : (makePipeline input.data options).insertCount = 0 :=
          bne_eq_false_iff_eq.mp hallowf
        have hl := pipeline_lengths input.data options
        have hfin : (makePipeline input.data options).finalLines.length =
            (makePipeline input.data options).lines.length := by
          rw [makePipeline_finalLines]
          unfold insertSwitchBlankLines
          rw [insertWalk_count_zero _ _ _ _ (by
            rw [makePipeline_insertCount] at h0
            exact h0), List.length_map, List.length_zip, hl.2.2.2.2.2.2, hl.2.2.2.2.1,
            min_self]
        have hleft := validateWalk_notallow_leftover
          (makePipeline input.data options).finalLines
          ((makePipeline input.data options).lineInfos.map LineInfo.original) 0
          (by rw [List.length_map, hl.1, ← hfin])
        intro l hl2
        rw [hallowf] at hl2
        rw [hleft] at hl2
        simp at hl2
    have := validateWalk_aligned ((makePipeline input.data options).insertCount != 0)
      (makePipeline input.data options).finalLines
      ((makePipeline input.data options).lineInfos.map LineInfo.original) 0 hwalk1 hsepAll
    rwa [pipeline_originals] at this
  · intro herr
    unfold formatText
    dsimp only
    split
    · rename_i hok
      unfold formatText at herr
      dsimp only at herr
      rw [if_pos hok] at herr
      simp at herr
    · rfl

theorem foldl_set_get_notmem {α : Type} (f : Nat → α) :
    ∀ (idxs : List Nat) (ds : List α) (i : Nat), i ∉ idxs →
      (idxs.foldl (fun ds idx => ds.set idx (f idx)) ds).get? i = ds.get? i := by
  intro idxs
  induction idxs with
  | nil => intro ds i _; rfl
  | cons idx rest ih =>
    intro ds i hni
    rw [List.foldl_cons, ih _ _ (fun h => hni (List.mem_cons_of_mem _ h))]
    exact List.get?_set_ne _ _ (fun h => hni (h ▸ List.mem_cons_self idx rest))

theorem foldl_set_get_mem {α : Type} (f : Nat → α) :
    ∀ (idxs : List Nat) (ds : List α) (i : Nat), i ∈ idxs → i < ds.length →
      (idxs.foldl (fun ds idx => ds.set idx (f idx)) ds).get? i = some (f i) := by
  intro idxs
  induction idxs with
  | nil => intro ds i h _; cases h
  | cons idx rest ih =>
    intro ds i hmem hlen
    rw [List.foldl_cons]
    by_cases hr : i ∈ rest
    · exact ih _ _ hr (by rw [List.length_set]; exact hlen)
    · have hi : idx = i := by
        rcases List.mem_cons.mp hmem with h | h
        · exact h.symm
        · exact absurd h hr
      subst hi
      rw [foldl_set_get_notmem f rest _ _ hr]
      exact List.get?_set_eq_of_lt _ hlen

theorem applySingleTextBlockOriginalIndent_get_in (block : TextBlock)
    (lineInfos : List LineInfo) (ds : List (Option Int)) (i : Nat)
    (h1 : block.startLine ≤ i) (h2 : i ≤ block.endLine) (hlen : i < ds.length) :
    (applySingleTextBlockOriginalIndent block lineInfos ds).get? i =
      some (some (((lineInfos.get? i).getD emptyLineInfo).leadingWidth)) := by
  unfold applySingleTextBlockOriginalIndent
  exact foldl_set_get_mem
    (fun idx => some (((lineInfos.get? idx).getD emptyLineInfo).leadingWidth)) _ _ _
    (by rw [List.mem_range'_1]; omega) hlen

theorem applySingleTextBlockOriginalIndent_get_out (block : TextBlock)
    (lineInfos : List LineInfo) (ds : List (Option Int)) (i : Nat)
    (h : i < block.startLine ∨ block.endLine < i) :
    (applySingleTextBlockOriginalIndent block lineInfos ds).get? i = ds.get? i := by
  unfold applySingleTextBlockOriginalIndent
  exact foldl_set_get_notmem
    (fun idx => some (((lineInfos.get? idx).getD emptyLineInfo).leadingWidth)) _ _ _
    (by rw [List.mem_range'_1]; omega)

theorem runBlockLines_desireds_out (u : Int) (israw : Bool) (base : Int)
    (lineInfos : List LineInfo) :
    ∀ (idxs : List Nat) (st : BlockState) (tbl : Tables) (i : Nat), i ∉ idxs →
      (runBlockLines u israw base lineInfos idxs st tbl).desireds.get? i =
        tbl.desireds.get? i := by
  intro idxs
  induction idxs with
  | nil => intro st tbl i _; rfl
  | cons idx rest ih =>
    intro st tbl i hni
    simp only [runBlockLines]
    rw [ih _ _ _ (fun h => hni (List.mem_cons_of_mem _ h))]
    exact List.get?_set_ne _ _ (fun h => hni (h ▸ List.mem_cons_self idx rest))

theorem applyOneBlock_desireds_out (u : Int) (lineInfos : List LineInfo) (tbl : Tables)
    (block : TextBlock) (i : Nat) (h : i < block.startLine ∨ block.endLine < i) :
    (applyOneBlock u lineInfos tbl block).desireds.get? i = tbl.desireds.get? i := by
  unfold applyOneBlock
  split
  · exact applySingleTextBlockOriginalIndent_get_out _ _ _ _ h
  · dsimp only
    split
    · exact applySingleTextBlockOriginalIndent_get_out _ _ _ _ h
    · exact runBlockLines_desireds_out _ _ _ _ _ _ _ _
        (by rw [List.mem_range'_1]; omega)

theorem applyOneBlock_preserved_get (u : Int) (lineInfos : List LineInfo) (tbl : Tables)
    (block : TextBlock) (i : Nat)
    (hraw : RAW_TAGS.contains block.tagName = true)
    (hmix : shouldPreserveRawBlockIndent block lineInfos = true)
    (h1 : block.startLine ≤ i) (h2 : i ≤ block.endLine)
    (hlen : i < tbl.desireds.length) :
    (applyOneBlock u lineInfos tbl block).desireds.get? i =
      some (some (((lineInfos.get? i).getD emptyLineInfo).leadingWidth)) := by
  unfold applyOneBlock
  split
  · exact applySingleTextBlockOriginalIndent_get_in _ _ _ _ h1 h2 hlen
  · dsimp only
    rw [if_pos (by rw [hraw, hmix]; rfl)]
    exact applySingleTextBlockOriginalIndent_get_in _ _ _ _ h1 h2 hlen

theorem DocBlocksInv_mono (i j : Nat) (st : DocState) (hij : i ≤ j)
    (h : DocBlocksInv i st) : DocBlocksInv j st := by
  obtain ⟨h1, h2, h3⟩ := h
  refine ⟨fun b hb => ⟨le_trans (h1 b hb).1 hij, (h1 b hb).2⟩, h2, fun c hc => ?_⟩
  obtain ⟨ha, hb2, hc2⟩ := h3 c hc
  exact ⟨ha, le_trans hb2 hij, hc2⟩

theorem DocBlocksInv_congr (i : Nat) (st st' : DocState)
    (hb : st'.textBlocks = st.textBlocks)
    (hc : st'.currentTextBlock = st.currentTextBlock)
    (h : DocBlocksInv i st) : DocBlocksInv i st' := by
  unfold DocBlocksInv
  rw [hb, hc]
  exact h

theorem DocBlocksInv_setCurrent (i e : Nat) (m : Int) (t : Str) (sk : Bool)
    (st st' : DocState) (hb : st'.textBlocks = st.textBlocks)
    (hc : st'.currentTextBlock = some ⟨i + 1, e, max 0 m, t, sk⟩)
    (h : DocBlocksInv (i + 1) st) : DocBlocksInv (i + 1) st' := by
  obtain ⟨h1, h2, h3⟩ := h
  unfold DocBlocksInv
  rw [hb, hc]
  refine ⟨h1, h2, fun c hcc => ?_⟩
  have hce : c = ⟨i + 1, e, max 0 m, t, sk⟩ := by
    injection hcc with hcc
    exact hcc.symm
  subst hce
  refine ⟨fun b hb2 => ?_, ?_, ?_⟩
  · show b.endLine < i + 1
    have := (h1 b hb2).1
    omega
  · show i + 1 ≤ i + 1
    exact le_refl _
  · show (0 : Int) ≤ max 0 m
    exact le_max_left _ _

theorem closeState_inv (i j : Nat) (st : DocState) (hij : i ≤ j) (hj : 1 ≤ j)
    (h : DocBlocksInv j st) (st' : DocState)
    (hb : st'.textBlocks = st.textBlocks ++ (match st.currentTextBlock with
      | some b => [{ b with endLine := i - 1 }]
      | none => []))
    (hc : st'.currentTextBlock = none) :
    DocBlocksInv j st' := by
  obtain ⟨h1, h2, h3⟩ := h
  unfold DocBlocksInv
  rw [hb, hc]
  cases hcur : st.currentTextBlock with
  | none =>
    refine ⟨?_, ?_, fun c hcc => by cases hcc⟩
    · simpa using h1
    · simpa using h2
  | some c =>
    obtain ⟨hc1, hc2, hc3⟩ := h3 c hcur
    refine ⟨?_, ?_, fun c hcc => by cases hcc⟩
    · intro b hb2
      rcases List.mem_append.mp hb2 with hb2 | hb2
      · exact h1 b hb2
      · have hbe : b = { c with endLine := i - 1 } := by simpa using hb2
        subst hbe
        refine ⟨?_, ?_⟩
        · show i - 1 + 1 ≤ j
          omega
        · show (0 : Int) ≤ c.parentLevel
          exact hc3
    · rw [List.pairwise_append]
      refine ⟨h2, ?_, ?_⟩
      · have := List.pairwise_singleton (fun (a b : TextBlock) => a.endLine < b.startLine)
          { c with endLine := i - 1 }
        simpa using this
      · intro a ha b hb2
        have hbe : b = { c with endLine := i - 1 } := by simpa using hb2
        subst hbe
        show a.endLine < c.startLine
        exact hc1 a ha

theorem docCloseText_inv (i : Nat) (hc : Bool) (st : DocState)
    (h : DocBlocksInv i st) : DocBlocksInv (i + 1) (docCloseText i hc st) := by
  have hm := DocBlocksInv_mono i (i + 1) st (Nat.le_succ _) h
  unfold docCloseText
  split
  · exact closeState_inv i (i + 1) st (Nat.le_succ _) (Nat.le_add_left 1 i) hm _ rfl rfl
  · exact hm

theorem docCloseRaw_inv (i : Nat) (hc : Bool) (st : DocState)
    (h : DocBlocksInv (i + 1) st) : DocBlocksInv (i + 1) (docCloseRaw i hc st) := by
  unfold docCloseRaw
  split
  · exact closeState_inv i (i + 1) st (Nat.le_succ _) (Nat.le_add_left 1 i) h _ rfl rfl
  · exact h

theorem docAfterClose_inv (i : Nat) (line : Str) (info : LineInfo) (st : DocState)
    (h : DocBlocksInv i st) : DocBlocksInv (i + 1) (docAfterClose i line info st) := by
  unfold docAfterClose
  exact docCloseRaw_inv _ _ _ (docCloseText_inv _ _ _ h)

theorem docOpenBlocks_inv (i : Nat) (trimmed : Str) (nl : Int) (st : DocState)
    (h : DocBlocksInv (i + 1) st) :
    DocBlocksInv (i + 1) (docOpenBlocks i trimmed nl st) := by
  unfold docOpenBlocks
  dsimp only
  split_ifs <;>
    first
      | exact h
      | exact DocBlocksInv_setCurrent i i (nl - 1) _ false st _ rfl rfl h

theorem docStep_inv (u : Int) (i : Nat) (line : Str) (info : LineInfo) (st : DocState)
    (h : DocBlocksInv i st) : DocBlocksInv (i + 1) (docStep u i line info st).1 := by
  unfold docStep
  dsimp only
  split
  · exact docAfterClose_inv i line info st h
  · exact docOpenBlocks_inv _ _ _ _
      (DocBlocksInv_congr _ _ _ rfl rfl (docAfterClose_inv i line info st h))

theorem docScanFrom_inv (u : Int) :
    ∀ (lines : List Str) (i : Nat) (infos : List LineInfo) (st : DocState),
      DocBlocksInv i st →
      DocBlocksInv (i + lines.length) (docScanFrom u i lines infos st).1 := by
  intro lines
  induction lines with
  | nil =>
    intro i infos st h
    simpa using h
  | cons line rest ih =>
    intro i infos st h
    cases infos with
    | nil =>
      simp only [docScanFrom, List.length_cons]
      exact DocBlocksInv_mono i _ st (Nat.le_add_right _ _) h
    | cons info irest =>
      simp only [docScanFrom, List.length_cons]
      have hstep := docStep_inv u i line info st h
      have hrest := ih (i + 1) irest _ hstep
      have heq : i + 1 + rest.length = i + (rest.length + 1) := by omega
      rw [heq] at hrest
      exact hrest

theorem splitDoc_ne_nil (l : Str) : splitDoc l ≠ [] := by
  rw [splitDoc.eq_def]
  split
  · simp
  · simp
  · simp
  · split <;> simp

theorem finishDocBlocks_sep (n : Nat) (st : DocState) (hn : 1 ≤ n)
    (h : DocBlocksInv n st) :
    (finishDocBlocks n st).Pairwise (fun a b => a.endLine < b.startLine) ∧
    ∀ b ∈ finishDocBlocks n st, b.endLine < n ∧ 0 ≤ b.parentLevel := by
  obtain ⟨h1, h2, h3⟩ := h
  unfold finishDocBlocks
  split
  · cases hcur : st.currentTextBlock with
    | none =>
      exact ⟨h2, fun b hb => ⟨by have := (h1 b hb).1; omega, (h1 b hb).2⟩⟩
    | some c =>
      obtain ⟨hc1, hc2, hc3⟩ := h3 c hcur
      constructor
      · rw [List.pairwise_append]
        refine ⟨h2, ?_, ?_⟩
        · have := List.pairwise_singleton (fun (a b : TextBlock) => a.endLine < b.startLine)
            { c with endLine := n - 1, skip := true }
          simpa using this
        · intro a ha b hb
          have hbe : b = { c with endLine := n - 1, skip := true } := by simpa using hb
          subst hbe
          show a.endLine < c.startLine
          exact hc1 a ha
      · intro b hb
        rcases List.mem_append.mp hb with hb | hb
        · exact ⟨by have := (h1 b hb).1; omega, (h1 b hb).2⟩
        · have hbe : b = { c with endLine := n - 1, skip := true } := by simpa using hb
          subst hbe
          refine ⟨?_, ?_⟩
          · show n - 1 < n
            omega
          · show (0 : Int) ≤ c.parentLevel
            exact hc3
  · exact ⟨h2, fun b hb => ⟨by have := (h1 b hb).1; omega, (h1 b hb).2⟩⟩

theorem pipeline_blocks_sep (input : Str) (options : FormatOptions) :
    (makePipeline input options).blocks.Pairwise (fun a b => a.endLine < b.startLine) ∧
    ∀ b ∈ (makePipeline input options).blocks,
      b.endLine < (makePipeline input options).lines.length ∧ 0 ≤ b.parentLevel := by
  have hn : 1 ≤ (splitLines input).1.length := by
    rcases List.exists_cons_of_ne_nil (splitDoc_ne_nil input) with ⟨x, t, heq⟩
    show 1 ≤ (splitDoc input).length
    rw [heq]
    simp
  have hinit : DocBlocksInv 0 initDocState :=
    ⟨fun b hb => absurd hb (List.not_mem_nil b), List.Pairwise.nil, fun c hc => by cases hc⟩
  have hinv := docScanFrom_inv (sanitizeIndentSize options.indentSize)
    (splitLines input).1 0 (makePipeline input options).lineInfos initDocState hinit
  rw [Nat.zero_add] at hinv
  have hfin := finishDocBlocks_sep (splitLines input).1.length _ hn hinv
  rw [makePipeline_blocks, makePipeline_lines]
  exact hfin

theorem applyTextBlockIndentation_desireds_out (u : Int) (lineInfos : List LineInfo) :
    ∀ (blocks : List TextBlock) (tbl : Tables) (i : Nat),
      (∀ b ∈ blocks, i < b.startLine ∨ b.endLine < i) →
      (applyTextBlockIndentation u blocks lineInfos tbl).desireds.get? i =
        tbl.desireds.get? i := by
  intro blocks
  induction blocks with
  | nil => intro tbl i _; rfl
  | cons block rest ih =>
    intro tbl i h
    have hstep : applyTextBlockIndentation u (block :: rest) lineInfos tbl =
        applyTextBlockIndentation u rest lineInfos (applyOneBlock u lineInfos tbl block) := rfl
    rw [hstep, ih _ _ (fun b hb => h b (List.mem_cons_of_mem _ hb))]
    exact applyOneBlock_desireds_out u lineInfos tbl block i (h block (List.mem_cons_self _ _))

theorem applyTextBlockIndentation_preserved_get (u : Int) (lineInfos : List LineInfo)
    (blocks : List TextBlock) (tbl : Tables) (b : TextBlock) (i : Nat)
    (hmem : b ∈ blocks)
    (hpair : blocks.Pairwise (fun a c => a.endLine < c.startLine))
    (hraw : RAW_TAGS.contains b.tagName = true)
    (hmix : shouldPreserveRawBlockIndent b lineInfos = true)
    (h1 : b.startLine ≤ i) (h2 : i ≤ b.endLine) (hlen : i < tbl.desireds.length) :
    (applyTextBlockIndentation u blocks lineInfos tbl).desireds.get? i =
      some (some (((lineInfos.get? i).getD emptyLineInfo).leadingWidth)) := by
  obtain ⟨l1, l2, rfl⟩ := List.append_of_mem hmem
  have hkey : applyTextBlockIndentation u (l1 ++ b :: l2) lineInfos tbl =
      applyTextBlockIndentation u l2 lineInfos
        (applyOneBlock u lineInfos (applyTextBlockIndentation u l1 lineInfos tbl) b) := by
    unfold applyTextBlockIndentation
    rw [List.foldl_append, List.foldl_cons]
  rw [hkey]
  have hl2 : ∀ c ∈ l2, i < c.startLine ∨ c.endLine < i := by
    intro c hc
    left
    have hrel : b.endLine < c.startLine :=
      (List.pairwise_cons.mp (List.pairwise_append.mp hpair).2.1).1 c hc
    omega
  rw [applyTextBlockIndentation_desireds_out u lineInfos l2 _ i hl2]
  refine applyOneBlock_preserved_get u lineInfos _ b i hraw hmix h1 h2 ?_
  rw [(applyTextBlockIndentation_length u lineInfos l1 tbl).1]
  exact hlen

/-- C7: when text-block adjustment is on, every captured raw (script/style)
block whose content mixes a razor directive code line with a plain
non-directive line (the ambiguous-remix heuristic of
`shouldPreserveRawBlockIndent`) has every one of its lines restored to its
original leading width in the desired-indent table, while every line lying
outside all captured blocks keeps the desired indent the document-level
pass computed for it — the rest of the document is reformatted normally. -/
theorem rawBlock_mixed_preserved (input : Str) (options : FormatOptions)
    (b : TextBlock) (hmem : b ∈ (makePipeline input options).blocks)
    (hraw : RAW_TAGS.contains b.tagName = true)
    (hmix : shouldPreserveRawBlockIndent b (makePipeline input options).lineInfos = true)
    (hadj : options.adjustTextBlocks = true) :
    (∀ i, b.startLine ≤ i → i ≤ b.endLine →
      (makePipeline input options).tables.desireds.get? i =
        some (some ((((makePipeline input options).lineInfos.get? i).getD
          emptyLineInfo).leadingWidth))) ∧
    (∀ j, (∀ c ∈ (makePipeline input options).blocks, j < c.startLine ∨ c.endLine < j) →
      (makePipeline input options).tables.desireds.get? j =
        (makePipeline input options).docDesireds.get? j) := by
  have hsep := pipeline_blocks_sep input options
  have hlens := pipeline_lengths input options
  have hdoclen : (makePipeline input options).docDesireds.length =
      (makePipeline input options).lines.length := by
    rw [makePipeline_docDesireds, makePipeline_lines]
    exact docScanFrom_length _ _ _ _ _ (by
      rw [← makePipeline_lines input options]
      exact hlens.1)
  constructor
  · intro i hi1 hi2
    rw [makePipeline_tables, if_pos hadj]
    refine applyTextBlockIndentation_preserved_get _ _ _ _ b i hmem hsep.1 hraw hmix
      hi1 hi2 ?_
    show i < (makePipeline input options).docDesireds.length
    have hblen := (hsep.2 b hmem).1
    omega
  · intro j hj
    rw [makePipeline_tables, if_pos hadj]
    exact applyTextBlockIndentation_desireds_out _ _ _ _ j hj

theorem rawBlock_mixed_preserved_witness :
    (⟨2, 3, 1, "script".data, false⟩ : TextBlock) ∈
      (makePipeline mixedRawInput.data ⟨4, true⟩).blocks ∧
    shouldPreserveRawBlockIndent ⟨2, 3, 1, "script".data, false⟩
      (makePipeline mixedRawInput.data ⟨4, true⟩).lineInfos = true ∧
    (makePipeline mixedRawInput.data ⟨4, true⟩).tables.desireds.get? 2 =
      some (some ((((makePipeline mixedRawInput.data ⟨4, true⟩).lineInfos.get? 2).getD
        emptyLineInfo).leadingWidth)) ∧
    (makePipeline mixedRawInput.data ⟨4, true⟩).tables.desireds.get? 1 =
      (makePipeline mixedRawInput.data ⟨4, true⟩).docDesireds.get? 1 := by
  refine ⟨by decide, by decide, ?_, ?_⟩
  · exact (rawBlock_mixed_preserved mixedRawInput.data ⟨4, true⟩
      ⟨2, 3, 1, "script".data, false⟩ (by decide) (by decide) (by decide) rfl).1 2
      (by decide) (by decide)
  · exact (rawBlock_mixed_preserved mixedRawInput.data ⟨4, true⟩
      ⟨2, 3, 1, "script".data, false⟩ (by decide) (by decide) (by decide) rfl).2 1
      (by decide)

theorem sanitizeIndentSize_pos (value : Int) : 1 ≤ sanitizeIndentSize value := by
  unfold sanitizeIndentSize
  split <;> omega

theorem countIndentWidth_nonneg (leading : Str) (u : Int) (hu : 0 ≤ u) :
    0 ≤ countIndentWidth leading u := by
  unfold countIndentWidth
  suffices h : ∀ (l : Str) (a : Int), 0 ≤ a →
      0 ≤ l.foldl (fun w ch => if ch == '\t' then w + u else w + 1) a by
    exact h leading 0 (le_refl 0)
  intro l
  induction l with
  | nil => intro a ha; exact ha
  | cons c t ih =>
    intro a ha
    rw [List.foldl_cons]
    refine ih _ ?_
    split <;> omega

theorem analyzeLine_leadingWidth_nonneg (l : Str) (u : Int) (hu : 0 ≤ u) :
    0 ≤ (analyzeLine l u).leadingWidth := by
  unfold analyzeLine
  dsimp only
  split
  · exact le_refl 0
  · exact countIndentWidth_nonneg _ _ hu

theorem docLineView_effectiveLevel_nonneg (line : Str) (info : LineInfo) (st : DocState) :
    0 ≤ (docLineView line info st).effectiveLevel := by
  rw [docLineView_effectiveLevel]
  exact le_max_left 0 _

theorem docStep_desired_nonneg (u : Int) (hu : 0 ≤ u) (i : Nat) (line : Str)
    (info : LineInfo) (st : DocState) (v : Int)
    (h : (docStep u i line info st).2 = some v) : 0 ≤ v := by
  unfold docStep at h
  dsimp only at h
  split at h
  · cases h
  · injection h with h
    rw [← h]
    refine add_nonneg (mul_nonneg (docLineView_effectiveLevel_nonneg _ _ _) hu) ?_
    split
    · exact hu
    · exact le_refl 0

theorem docScanFrom_desireds_nonneg (u : Int) (hu : 0 ≤ u) :
    ∀ (lines : List Str) (i : Nat) (infos : List LineInfo) (st : DocState),
      ∀ x ∈ (docScanFrom u i lines infos st).2, ∀ v, x = some v → 0 ≤ v := by
  intro lines
  induction lines with
  | nil => intro i infos st x hx; simp [docScanFrom] at hx
  | cons line rest ih =>
    intro i infos st x hx
    cases infos with
    | nil => simp [docScanFrom] at hx
    | cons info irest =>
      simp only [docScanFrom] at hx
      rcases List.mem_cons.mp hx with rfl | hx'
      · intro v hv
        exact docStep_desired_nonneg u hu i line info st v hv
      · exact ih _ _ _ x hx'

theorem blockLineView_effectiveLevel_nonneg (israw : Bool) (info : LineInfo)
    (st : BlockState) : 0 ≤ (blockLineView israw info st).effectiveLevel := by
  show (0 : Int) ≤ max 0 _
  exact le_max_left 0 _

theorem blockStep_group_nonneg (u : Int) (israw : Bool) (base : Int) (info : LineInfo)
    (st : BlockState) (hu : 0 ≤ u) (hb : 0 ≤ base)
    (hg : ∀ g, st.razorTextGroupBaseLevel = some g → 0 ≤ g) :
    0 ≤ (blockStep u israw base info st).2.desired ∧
    (∀ g, (blockStep u israw base info st).1.razorTextGroupBaseLevel = some g → 0 ≤ g) := by
  unfold blockStep
  split
  · exact ⟨le_refl 0, fun g hgg => by cases hgg⟩
  · dsimp only
    split
    · have hgv : 0 ≤ st.razorTextGroupBaseLevel.getD
          (blockLineView israw info st).effectiveLevel := by
        cases hst : st.razorTextGroupBaseLevel with
        | some g0 => simpa [hst] using hg g0 hst
        | none => simpa [hst] using blockLineView_effectiveLevel_nonneg israw info st
      refine ⟨?_, ?_⟩
      · exact add_nonneg hb (mul_nonneg hgv hu)
      · intro g hgg
        injection hgg with hgg
        rw [← hgg]
        exact hgv
    · split
      · refine ⟨?_, fun g hgg => by cases hgg⟩
        refine add_nonneg (add_nonneg hb
          (mul_nonneg (blockLineView_effectiveLevel_nonneg _ _ _) hu)) ?_
        split
        · exact hu
        · exact le_refl 0
      · refine ⟨?_, hg⟩
        refine add_nonneg (add_nonneg hb
          (mul_nonneg (blockLineView_effectiveLevel_nonneg _ _ _) hu)) ?_
        split
        · exact hu
        · exact le_refl 0

theorem foldl_set_desok (f : Nat → Option Int)
    (hf : ∀ i v, f i = some v → 0 ≤ v) :
    ∀ (idxs : List Nat) (ds : List (Option Int)),
      (∀ x ∈ ds, ∀ v, x = some v → 0 ≤ v) →
      ∀ x ∈ idxs.foldl (fun ds idx => ds.set idx (f idx)) ds, ∀ v, x = some v → 0 ≤ v := by
  intro idxs
  induction idxs with
  | nil => intro ds hd; exact hd
  | cons idx rest ih =>
    intro ds hd
    rw [List.foldl_cons]
    refine ih _ ?_
    intro y hy v hv
    rcases List.mem_or_eq_of_mem_set hy with hy' | rfl
    · exact hd y hy' v hv
    · exact hf idx v hv

theorem leadingWidth_get_nonneg (lineInfos : List LineInfo) (idx : Nat)
    (hinfo : ∀ info ∈ lineInfos, 0 ≤ info.leadingWidth) :
    0 ≤ ((lineInfos.get? idx).getD emptyLineInfo).leadingWidth := by
  cases hx : lineInfos.get? idx with
  | none => simp [hx, emptyLineInfo]
  | some info =>
    simp only [hx, Option.getD_some]
    exact hinfo info (List.get?_mem hx)

theorem applySingleTextBlockOriginalIndent_desok (block : TextBlock)
    (lineInfos : List LineInfo) (ds : List (Option Int))
    (hinfo : ∀ info ∈ lineInfos, 0 ≤ info.leadingWidth)
    (hd : ∀ x ∈ ds, ∀ v, x = some v → 0 ≤ v) :
    ∀ x ∈ applySingleTextBlockOriginalIndent block lineInfos ds,
      ∀ v, x = some v → 0 ≤ v := by
  unfold applySingleTextBlockOriginalIndent
  refine foldl_set_desok _ ?_ _ _ hd
  intro i v hv
  injection hv with hv
  rw [← hv]
  exact leadingWidth_get_nonneg lineInfos i hinfo

theorem runBlockLines_desok (u : Int) (israw : Bool) (base : Int)
    (lineInfos : List LineInfo) (hu : 0 ≤ u) (hb : 0 ≤ base) :
    ∀ (idxs : List Nat) (st : BlockState) (tbl : Tables),
      (∀ g, st.razorTextGroupBaseLevel = some g → 0 ≤ g) →
      (∀ x ∈ tbl.desireds, ∀ v, x = some v → 0 ≤ v) →
      ∀ x ∈ (runBlockLines u israw base lineInfos idxs st tbl).desireds,
        ∀ v, x = some v → 0 ≤ v := by
  intro idxs
  induction idxs with
  | nil => intro st tbl _ hd; exact hd
  | cons idx rest ih =>
    intro st tbl hg hd
    simp only [runBlockLines]
    refine ih _ _ ?_ ?_
    · exact (blockStep_group_nonneg u israw base _ st hu hb hg).2
    · intro y hy v hv
      rcases List.mem_or_eq_of_mem_set hy with hy' | rfl
      · exact hd y hy' v hv
      · injection hv with hv
        rw [← hv]
        exact (blockStep_group_nonneg u israw base _ st hu hb hg).1

theorem applyOneBlock_desok (u : Int) (lineInfos : List LineInfo) (tbl : Tables)
    (block : TextBlock) (hu : 0 ≤ u) (hp : 0 ≤ block.parentLevel)
    (hinfo : ∀ info ∈ lineInfos, 0 ≤ info.leadingWidth)
    (hd : ∀ x ∈ tbl.desireds, ∀ v, x = some v → 0 ≤ v) :
    ∀ x ∈ (applyOneBlock u lineInfos tbl block).desireds, ∀ v, x = some v → 0 ≤ v := by
  unfold applyOneBlock
  split
  · exact applySingleTextBlockOriginalIndent_desok _ _ _ hinfo hd
  · dsimp only
    split
    · exact applySingleTextBlockOriginalIndent_desok _ _ _ hinfo hd
    · refine runBlockLines_desok u _ _ lineInfos hu ?_ _ initBlockState tbl
        (fun g hg => by cases hg) hd
      unfold blockBaseIndent
      refine add_nonneg (mul_nonneg hp hu) ?_
      split
      · exact le_refl 0
      · exact hu

theorem applyTextBlockIndentation_desok (u : Int) (lineInfos : List LineInfo)
    (hu : 0 ≤ u) (hinfo : ∀ info ∈ lineInfos, 0 ≤ info.leadingWidth) :
    ∀ (blocks : List TextBlock) (tbl : Tables),
      (∀ b ∈ blocks, 0 ≤ b.parentLevel) →
      (∀ x ∈ tbl.desireds, ∀ v, x = some v → 0 ≤ v) →
      ∀ x ∈ (applyTextBlockIndentation u blocks lineInfos tbl).desireds,
        ∀ v, x = some v → 0 ≤ v := by
  intro blocks
  induction blocks with
  | nil => intro tbl _ hd; exact hd
  | cons block rest ih =>
    intro tbl hp hd
    have hstep : applyTextBlockIndentation u (block :: rest) lineInfos tbl =
        applyTextBlockIndentation u rest lineInfos (applyOneBlock u lineInfos tbl block) := rfl
    rw [hstep]
    refine ih _ (fun b hb => hp b (List.mem_cons_of_mem _ hb)) ?_
    exact applyOneBlock_desok u lineInfos tbl block hu (hp block (List.mem_cons_self _ _))
      hinfo hd

theorem applyTextBlockOriginalIndent_desok (lineInfos : List LineInfo)
    (hinfo : ∀ info ∈ lineInfos, 0 ≤ info.leadingWidth) :
    ∀ (blocks : List TextBlock) (ds : List (Option Int)),
      (∀ x ∈ ds, ∀ v, x = some v → 0 ≤ v) →
      ∀ x ∈ applyTextBlockOriginalIndent blocks lineInfos ds, ∀ v, x = some v → 0 ≤ v := by
  intro blocks
  induction blocks with
  | nil => intro ds hd; exact hd
  | cons block rest ih =>
    intro ds hd
    have hstep : applyTextBlockOriginalIndent (block :: rest) lineInfos ds =
        applyTextBlockOriginalIndent rest lineInfos
          (applySingleTextBlockOriginalIndent block lineInfos ds) := rfl
    rw [hstep]
    exact ih _ (applySingleTextBlockOriginalIndent_desok _ _ _ hinfo hd)

theorem pipeline_lineInfos_nonneg (input : Str) (options : FormatOptions) :
    ∀ info ∈ (makePipeline input options).lineInfos, 0 ≤ info.leadingWidth := by
  rw [makePipeline_lineInfos]
  intro info hinfo
  rcases List.mem_map.mp hinfo with ⟨l, _, rfl⟩
  exact analyzeLine_leadingWidth_nonneg l _
    (le_trans (by omega) (sanitizeIndentSize_pos options.indentSize))

theorem pipeline_desireds_nonneg (input : Str) (options : FormatOptions) :
    ∀ x ∈ (makePipeline input options).tables.desireds, ∀ v, x = some v → 0 ≤ v := by
  have hu : (0 : Int) ≤ sanitizeIndentSize options.indentSize :=
    le_trans (by omega) (sanitizeIndentSize_pos options.indentSize)
  have hinfo := pipeline_lineInfos_nonneg input options
  have hdoc : ∀ x ∈ (makePipeline input options).docDesireds, ∀ v, x = some v → 0 ≤ v := by
    rw [makePipeline_docDesireds]
    exact docScanFrom_desireds_nonneg _ hu _ _ _ _
  rw [makePipeline_tables]
  split
  · exact applyTextBlockIndentation_desok _ _ hu hinfo _ _
      (fun b hb => ((pipeline_blocks_sep input options).2 b hb).2) hdoc
  · exact applyTextBlockOriginalIndent_desok _ hinfo _ _ hdoc

theorem pipeline_desiredsFilled_nonneg (input : Str) (options : FormatOptions) :
    ∀ d ∈ (makePipeline input options).desiredsFilled, 0 ≤ d := by
  rw [makePipeline_desiredsFilled]
  intro d hd
  rcases List.mem_map.mp hd with ⟨p, hp, rfl⟩
  obtain ⟨x, info⟩ := p
  have hmem := List.mem_zip hp
  cases hx : x with
  | some v =>
    simp only [hx, Option.getD_some]
    exact pipeline_desireds_nonneg input options x hmem.1 v hx
  | none =>
    simp only [hx, Option.getD_none]
    exact pipeline_lineInfos_nonneg input options info hmem.2

theorem takeWhile_dropWhile_nil (p : Char → Bool) (l : List Char) :
    (l.dropWhile p).takeWhile p = [] := by
  induction l with
  | nil => rfl
  | cons c t ih =>
    rw [List.dropWhile_cons]
    split
    · exact ih
    · rename_i hc
      rw [List.takeWhile_cons, if_neg hc]

theorem takeWhile_replicate_append (n : Nat) (l : Str)
    (hl : l.takeWhile jsIsSpace = []) :
    (List.replicate n ' ' ++ l).takeWhile jsIsSpace = List.replicate n ' ' := by
  induction n with
  | zero => simpa using hl
  | succ k ih =>
    rw [List.replicate_succ, List.cons_append, List.takeWhile_cons, if_pos (by decide), ih]

theorem marker_cons_takeWhile (xs : Str) :
    (('@' :: xs).takeWhile jsIsSpace) = [] := by
  rw [List.takeWhile_cons, if_neg (by decide)]

theorem formatRawLineContent_noLead (rest : Str)
    (h : rest.takeWhile jsIsSpace = []) :
    (formatRawLineContent rest).takeWhile jsIsSpace = [] := by
  unfold formatRawLineContent
  split
  · rfl
  · exact h

theorem makeIndentedLine_takeWhile (rest : Str) (d : Int)
    (h : rest.takeWhile jsIsSpace = []) :
    (makeIndentedLine rest d).takeWhile jsIsSpace = List.replicate d.toNat ' ' := by
  unfold makeIndentedLine
  split
  · rename_i hd
    rw [Int.toNat_of_nonpos hd, List.replicate_zero]
    exact h
  · exact takeWhile_replicate_append _ _ h

theorem makeRazorTextIndentedLine_takeWhile (rest : Str) (d ci : Int)
    (h : rest.takeWhile jsIsSpace = []) :
    (makeRazorTextIndentedLine rest d ci).takeWhile jsIsSpace =
      List.replicate d.toNat ' ' := by
  unfold makeRazorTextIndentedLine
  split
  · exact makeIndentedLine_takeWhile _ _ h
  · dsimp only
    split
    · exact makeIndentedLine_takeWhile _ _ h
    · by_cases hd : d > 0
      · rw [if_pos hd]
        split
        · exact takeWhile_replicate_append _ _ (marker_cons_takeWhile _)
        · rw [List.append_assoc]
          exact takeWhile_replicate_append _ _ (marker_cons_takeWhile _)
      · rw [if_neg hd]
        have hdn : d.toNat = 0 := Int.toNat_of_nonpos (by omega)
        rw [hdn, List.replicate_zero]
        split
        · exact marker_cons_takeWhile _
        · exact marker_cons_takeWhile _

theorem renderLine_takeWhile (info : LineInfo) (d : Int) (flag : Bool) (ci : Int)
    (meta : Option RawLineMeta) (hrest : info.rest.takeWhile jsIsSpace = []) :
    (renderLine info d flag ci meta).takeWhile jsIsSpace = List.replicate d.toNat ' ' := by
  unfold renderLine
  dsimp only
  by_cases hf : flag = true
  · rw [if_pos hf]
    refine makeRazorTextIndentedLine_takeWhile _ _ _ ?_
    split
    · exact formatRawLineContent_noLead _ hrest
    · exact hrest
  · rw [if_neg hf]
    refine makeIndentedLine_takeWhile _ _ ?_
    split
    · exact formatRawLineContent_noLead _ hrest
    · exact hrest

theorem analyzeLine_rest_noLead (l : Str) (u : Int)
    (hl : ∀ c ∈ l, isLineTerm c = false) :
    (analyzeLine l u).rest.takeWhile jsIsSpace = [] := by
  unfold analyzeLine
  dsimp only
  split
  · rename_i hany
    exfalso
    rw [List.any_eq_true] at hany
    obtain ⟨c, hc, hct⟩ := hany
    have hcl : c ∈ l := (List.dropWhile_sublist _).subset hc
    rw [hl c hcl] at hct
    cases hct
  · exact takeWhile_dropWhile_nil jsIsSpace l

theorem renderAll_takeWhile :
    ∀ (infos : List LineInfo) (ds : List Int) (fs : List Bool) (cs : List Int)
      (ms : List (Option RawLineMeta)),
      (∀ info ∈ infos, info.rest.takeWhile jsIsSpace = []) →
      ∀ (i : Nat) (out : Str) (d : Int),
        (renderAll infos ds fs cs ms).get? i = some out → ds.get? i = some d →
        out.takeWhile jsIsSpace = List.replicate d.toNat ' ' := by
  intro infos
  induction infos with
  | nil => intro ds fs cs ms _ i out d hout _; simp [renderAll] at hout
  | cons info irest ih =>
    intro ds fs cs ms hclean i out d hout hd
    cases ds with
    | nil => simp at hd
    | cons d0 drest =>
      cases fs with
      | nil => simp [renderAll] at hout
      | cons f frest =>
        cases cs with
        | nil => simp [renderAll] at hout
        | cons c crest =>
          cases ms with
          | nil => simp [renderAll] at hout
          | cons m mrest =>
            cases i with
            | zero =>
              simp only [renderAll, List.get?_cons_zero] at hout hd
              injection hout with hout
              injection hd with hd
              rw [← hout, ← hd]
              exact renderLine_takeWhile _ _ _ _ _ (hclean info (List.mem_cons_self _ _))
            | succ k =>
              simp only [renderAll, List.get?_cons_succ] at hout hd
              exact ih drest frest crest mrest
                (fun x hx => hclean x (List.mem_cons_of_mem _ hx)) k out d hout hd

theorem renderAll_spacesLead :
    ∀ (infos : List LineInfo) (ds : List Int) (fs : List Bool) (cs : List Int)
      (ms : List (Option RawLineMeta)),
      (∀ info ∈ infos, info.rest.takeWhile jsIsSpace = []) →
      ∀ l ∈ renderAll infos ds fs cs ms, SpacesLead l := by
  intro infos
  induction infos with
  | nil => intro ds fs cs ms _ l hl; simp [renderAll] at hl
  | cons info irest ih =>
    intro ds fs cs ms hclean l hl
    cases ds with
    | nil => simp [renderAll] at hl
    | cons d0 drest =>
      cases fs with
      | nil => simp [renderAll] at hl
      | cons f frest =>
        cases cs with
        | nil => simp [renderAll] at hl
        | cons c crest =>
          cases ms with
          | nil => simp [renderAll] at hl
          | cons m mrest =>
            simp only [renderAll] at hl
            rcases List.mem_cons.mp hl with rfl | hl'
            · intro ch hch
              rw [renderLine_takeWhile _ _ _ _ _
                (hclean info (List.mem_cons_self _ _))] at hch
              exact List.eq_of_mem_replicate hch
            · exact ih drest frest crest mrest
                (fun x hx => hclean x (List.mem_cons_of_mem _ hx)) l hl'

theorem razorLineLead_eq (ln ws : Str) (h : razorLineLead ln = some ws) :
    ws = ln.takeWhile jsIsSpace := by
  unfold razorLineLead at h
  split at h
  · injection h with h
    exact h.symm
  · cases h

theorem spacesLead_marker (ws : Str) (h : ∀ c ∈ ws, c = ' ') :
    SpacesLead (ws ++ ['@', ':']) := by
  intro c hc
  have hcs : jsIsSpace c = true := List.mem_takeWhile_imp hc
  have hcm : c ∈ ws ++ ['@', ':'] := (List.takeWhile_prefix _).subset hc
  rcases List.mem_append.mp hcm with h1 | h1
  · exact h c h1
  · exfalso
    have hce : c = '@' ∨ c = ':' := by simpa using h1
    rcases hce with rfl | rfl
    · exact absurd hcs (by decide)
    · exact absurd hcs (by decide)

theorem mem_ite_nil {α : Type} (p : Prop) [Decidable p] (xs : List α) (x : α)
    (h : x ∈ if p then xs else []) : x ∈ xs := by
  split at h
  · exact h
  · exact absurd h (List.not_mem_nil x)

theorem insertWalk_spacesLead :
    ∀ (lm : List (Str × Option RawLineMeta)) (a b c : Bool),
      (∀ p ∈ lm, SpacesLead p.1) →
      ∀ l ∈ (insertWalk a b c lm).1, SpacesLead l := by
  intro lm
  induction lm with
  | nil => intro a b c _ l hl; simp [insertWalk] at hl
  | cons hd rest ih =>
    intro a b c hall l hl
    obtain ⟨ln, m⟩ := hd
    cases m with
    | none =>
      simp only [insertWalk] at hl
      rcases List.mem_cons.mp hl with rfl | hl'
      · exact hall (l, none) (List.mem_cons_self _ _)
      · exact ih _ _ _ (fun p hp => hall p (List.mem_cons_of_mem _ hp)) l hl'
    | some meta =>
      simp only [insertWalk] at hl
      split at hl
      · rcases List.mem_cons.mp hl with rfl | hl'
        · exact hall (l, some meta) (List.mem_cons_self _ _)
        · exact ih _ _ _ (fun p hp => hall p (List.mem_cons_of_mem _ hp)) l hl'
      · rcases List.mem_append.mp hl with hins | hl2
        · have hins2 := mem_ite_nil _ _ _ hins
          cases hr : razorLineLead ln with
          | some ws =>
            rw [hr] at hins2
            have hle : l = ws ++ ['@', ':'] := by simpa using hins2
            subst hle
            refine spacesLead_marker ws ?_
            intro ch hch
            have hsp := hall (ln, some meta) (List.mem_cons_self _ _)
            rw [razorLineLead_eq ln ws hr] at hch
            exact hsp ch hch
          | none =>
            rw [hr] at hins2
            have hle : l = [] := by simpa using hins2
            subst hle
            intro ch hch
            simp at hch
        · rcases List.mem_cons.mp hl2 with rfl | hl'
          · exact hall (l, some meta) (List.mem_cons_self _ _)
          · exact ih _ _ _ (fun p hp => hall p (List.mem_cons_of_mem _ hp)) l hl'

/-- C10 (amended): for an input none of whose logical lines contains a bare
line-terminator character (carriage return, U+2028, U+2029 — these defeat
the leading-whitespace split and make the line pass through verbatim, the
counterexample's tab surviving), a successful `formatText` run yields output
lines whose leading whitespace runs consist solely of spaces, and each
rendered (non-inserted) line carries exactly its computed desired
indentation width, a non-negative count of spaces. -/
theorem output_leading_all_spaces (input : String) (options : FormatOptions)
    (hclean : ∀ l ∈ (makePipeline input.data options).lines, ∀ c ∈ l, isLineTerm c = false)
    (herr : (formatText input options).error = none) :
    (∀ l ∈ (makePipeline input.data options).finalLines, SpacesLead l) ∧
    (∀ (i : Nat) (out : Str) (d : Int),
      (makePipeline input.data options).outputLines.get? i = some out →
      (makePipeline input.data options).desiredsFilled.get? i = some d →
      0 ≤ d ∧ out.takeWhile jsIsSpace = List.replicate d.toNat ' ') := by
  have hrest : ∀ info ∈ (makePipeline input.data options).lineInfos,
      info.rest.takeWhile jsIsSpace = [] := by
    rw [makePipeline_lineInfos]
    intro info hinfo
    rcases List.mem_map.mp hinfo with ⟨l, hl, rfl⟩
    exact analyzeLine_rest_noLead l _ (hclean l (by rwa [makePipeline_lines]))
  constructor
  · intro l hl
    rw [makePipeline_finalLines] at hl
    unfold insertSwitchBlankLines at hl
    refine insertWalk_spacesLead _ false false false ?_ l hl
    intro p hp
    obtain ⟨pl, pm⟩ := p
    have hp1 := (List.mem_zip hp).1
    rw [makePipeline_outputLines] at hp1
    exact renderAll_spacesLead _ _ _ _ _ hrest pl hp1
  · intro i out d hout hd
    constructor
    · exact pipeline_desiredsFilled_nonneg input.data options d (List.get?_mem hd)
    · rw [makePipeline_outputLines] at hout
      exact renderAll_takeWhile _ _ _ _ _ hrest i out d hout hd

theorem output_leading_all_spaces_witness :
    (∀ l ∈ (makePipeline switchBlockInput.data ⟨4, true⟩).finalLines, SpacesLead l) ∧
    (∀ (i : Nat) (out : Str) (d : Int),
      (makePipeline switchBlockInput.data ⟨4, true⟩).outputLines.get? i = some out →
      (makePipeline switchBlockInput.data ⟨4, true⟩).desiredsFilled.get? i = some d →
      0 ≤ d ∧ out.takeWhile jsIsSpace = List.replicate d.toNat ' ') :=
  output_leading_all_spaces switchBlockInput ⟨4, true⟩ (by decide) (by decide)

end RazorFmt
